import Mathlib

/-!
Arena allocators of `Engineering Examples/arena/Arena`.

A shallow embedding of `leveldb_arena.{h,cc}` and `simple_arena.h`.

* Addresses (`char*`, `void*`) are natural numbers, `0` is `nullptr`.  Pointer
  arithmetic is plain addition.
* `size_t` is 64 bits wide; its arithmetic is written with an explicit
  reduction modulo `2 ^ 64` (`addSz`, `subSz`, `notSz`).  Only the bound
  `2 ^ 64` enters the proofs.
* `std::malloc` is an oracle `Heap → Nat → Nat`: from the blocks handed out so
  far and the requested size it yields the base address of the new block, `0`
  for failure.  The heap records each block together with the size it was
  requested with, which the `blocks_` vectors of the arenas do not store.
* `assert(block)` aborts: the embedded functions return `none`.
* `std::free` removes a block from the record of the system allocator and is an
  error on a pointer that is not the base of a recorded block.
-/

/-- A block handed out by the system allocator: base address and requested size. -/
structure Block where
  base : Nat
  size : Nat
deriving DecidableEq

/-- The blocks handed out by the system allocator so far, oldest first. -/
abbrev Heap := List Block

/-- The system allocator `std::malloc`, as an oracle on the allocation history. -/
abbrev Malloc := Heap → Nat → Nat

/-- Number of values of `size_t`. -/
def SIZE : Nat := 2 ^ 64

/-- Wrapping `size_t` addition. -/
def addSz (a b : Nat) : Nat := (a + b) % SIZE

/-- Wrapping `size_t` subtraction: the difference in the integers, reduced modulo
`2 ^ 64` (see `subSz_eq_mod`). -/
def subSz (a b : Nat) : Nat := (((a : Int) - (b : Int)) % (SIZE : Int)).toNat

/-- Bitwise complement `~a` of a `size_t`. -/
def notSz (a : Nat) : Nat := SIZE - 1 - a % SIZE

/-- The half-open address ranges `[p, p + n)` and `[q, q + m)` do not overlap. -/
def Apart (r s : Nat × Nat) : Prop := r.1 + r.2 ≤ s.1 ∨ s.1 + s.2 ≤ r.1

instance (r s : Nat × Nat) : Decidable (Apart r s) := by
  unfold Apart; infer_instance

/-- The address range `r = (p, n)` lies between the base of `b` and its end. -/
def Inside (r : Nat × Nat) (b : Block) : Prop := b.base ≤ r.1 ∧ r.1 + r.2 ≤ b.base + b.size

instance (r : Nat × Nat) (b : Block) : Decidable (Inside r b) := by
  unfold Inside; infer_instance

/-- A system allocator that never fails and never hands out memory overlapping a
block it handed out before. -/
def MallocDisjoint (malloc : Malloc) : Prop :=
  ∀ (h : Heap) (n : Nat), malloc h n ≠ 0 ∧ ∀ b ∈ h, Apart (malloc h n, n) (b.base, b.size)

/-- First address above every block of the heap. -/
def heapTop : Heap → Nat
  | [] => 0
  | b :: h => max (b.base + b.size) (heapTop h)

/-- A concrete system allocator: the next multiple of 16 that is strictly above
every block handed out so far. -/
def bumpMalloc : Malloc := fun h _ => (heapTop h / 16 + 1) * 16

/-! ## `leveldb_arena.h`, `leveldb_arena.cc` -/

/-- The data members of `class LevelDBArena`. -/
structure LevelDBArena where
  alloc_ptr_ : Nat
  alloc_bytes_remaining_ : Nat
  blocks_ : List Nat
deriving DecidableEq

namespace LevelDBArena

/-- The constant `static constexpr size_t kBlockSize = 4096`. -/
def kBlockSize : Nat := 4096

/-- The state after `LevelDBArena::LevelDBArena() = default`. -/
def ctor : LevelDBArena := { alloc_ptr_ := 0, alloc_bytes_remaining_ := 0, blocks_ := [] }

/-- The method `LevelDBArena::AllocateNewBlock`. -/
def AllocateNewBlock (malloc : Malloc) (block_bytes : Nat) (w : Heap × LevelDBArena) :
    Option (Nat × Heap × LevelDBArena) :=
  let block := malloc w.1 block_bytes
  if block = 0 then none
  else some (block, w.1 ++ [⟨block, block_bytes⟩],
    { w.2 with blocks_ := w.2.blocks_ ++ [block] })

/-- The method `LevelDBArena::AllocateFallback`. -/
def AllocateFallback (malloc : Malloc) (bytes : Nat) (w : Heap × LevelDBArena) :
    Option (Nat × Heap × LevelDBArena) :=
  if bytes > kBlockSize / 4 then AllocateNewBlock malloc bytes w
  else
    match AllocateNewBlock malloc kBlockSize w with
    | none => none
    | some (block, h, a) =>
      let a1 : LevelDBArena :=
        { a with alloc_ptr_ := block, alloc_bytes_remaining_ := kBlockSize }
      let result := a1.alloc_ptr_
      some (result, h,
        { a1 with alloc_ptr_ := a1.alloc_ptr_ + bytes,
                  alloc_bytes_remaining_ := subSz a1.alloc_bytes_remaining_ bytes })

/-- The method `LevelDBArena::allocate`. -/
def allocate (malloc : Malloc) (bytes : Nat) (w : Heap × LevelDBArena) :
    Option (Nat × Heap × LevelDBArena) :=
  if bytes ≤ w.2.alloc_bytes_remaining_ then
    let result := w.2.alloc_ptr_
    some (result, w.1,
      { w.2 with alloc_ptr_ := w.2.alloc_ptr_ + bytes,
                 alloc_bytes_remaining_ := subSz w.2.alloc_bytes_remaining_ bytes })
  else AllocateFallback malloc bytes w

/-- A sequence of `allocate` calls; yields the returned regions `(pointer, bytes)`
in call order and the final state. -/
def allocateAll (malloc : Malloc) :
    List Nat → Heap × LevelDBArena → Option (List (Nat × Nat) × Heap × LevelDBArena)
  | [], w => some ([], w)
  | n :: ns, w =>
    match allocate malloc n w with
    | none => none
    | some (p, w1) =>
      match allocateAll malloc ns w1 with
      | none => none
      | some (rs, w2) => some ((p, n) :: rs, w2)

/-- The invariant behind the no-overlap property: `h` is what the system allocator
has handed out, `a` the arena, `R` the regions `allocate` has returned so far.  The
free window is the range `[alloc_ptr_, alloc_ptr_ + alloc_bytes_remaining_)`. -/
structure Inv (h : Heap) (a : LevelDBArena) (R : List (Nat × Nat)) : Prop where
  blocks_apart : h.Pairwise (fun b c => Apart (b.base, b.size) (c.base, c.size))
  recorded : a.blocks_ = h.map Block.base
  remaining_le : a.alloc_bytes_remaining_ ≤ kBlockSize
  cursor : (a.alloc_ptr_ = 0 ∧ a.alloc_bytes_remaining_ = 0) ∨
    ∃ b ∈ h, Inside (a.alloc_ptr_, a.alloc_bytes_remaining_) b
  regions_inside : ∀ r ∈ R, 0 < r.2 ∧ ∃ b ∈ h, Inside r b
  regions_free : ∀ r ∈ R, Apart r (a.alloc_ptr_, a.alloc_bytes_remaining_)
  regions_apart : R.Pairwise Apart

end LevelDBArena

/-! ## `simple_arena.h` -/

/-- The data members of `class SimpleArena`. -/
structure SimpleArena where
  block_size_ : Nat
  blocks_ : List Nat
  alloc_ptr_ : Nat
  bytes_remaining_ : Nat
deriving DecidableEq

namespace SimpleArena

/-- The state after `explicit SimpleArena(size_t block_size = 4096)`. -/
def ctor (block_size : Nat) : SimpleArena :=
  { block_size_ := block_size, blocks_ := [], alloc_ptr_ := 0, bytes_remaining_ := 0 }

/-- The static method `SimpleArena::align`:
`(n + alignment - 1) & ~(alignment - 1)` in `size_t` arithmetic. -/
def align (n alignment : Nat) : Nat :=
  Nat.land (subSz (addSz n alignment) 1) (notSz (subSz alignment 1))

/-- The method `SimpleArena::allocate_block`. -/
def allocate_block (malloc : Malloc) (min_bytes : Nat) (w : Heap × SimpleArena) :
    Option (Heap × SimpleArena) :=
  let size := if min_bytes > w.2.block_size_ / 4 then min_bytes else w.2.block_size_
  let block := malloc w.1 size
  if block = 0 then none
  else some (w.1 ++ [⟨block, size⟩],
    { w.2 with blocks_ := w.2.blocks_ ++ [block], alloc_ptr_ := block,
               bytes_remaining_ := size })

/-- The method `SimpleArena::allocate`. -/
def allocate (malloc : Malloc) (bytes alignment : Nat) (w : Heap × SimpleArena) :
    Option (Nat × Heap × SimpleArena) :=
  let aligned := align bytes alignment
  let w1 := if aligned > w.2.bytes_remaining_ then allocate_block malloc aligned w else some w
  match w1 with
  | none => none
  | some (h, a) =>
    let result := a.alloc_ptr_
    some (result, h,
      { a with alloc_ptr_ := a.alloc_ptr_ + aligned,
               bytes_remaining_ := subSz a.bytes_remaining_ aligned })

/-- A sequence of `allocate` calls, each with its own `(bytes, alignment)`; yields
the returned pointers in call order and the final state. -/
def allocateAll (malloc : Malloc) :
    List (Nat × Nat) → Heap × SimpleArena → Option (List Nat × Heap × SimpleArena)
  | [], w => some ([], w)
  | c :: cs, w =>
    match allocate malloc c.1 c.2 w with
    | none => none
    | some (p, w1) =>
      match allocateAll malloc cs w1 with
      | none => none
      | some (ps, w2) => some (p :: ps, w2)

end SimpleArena

/-! ## Destruction -/

/-- The library function `std::free` on the record of the system allocator:
releasing the null pointer does nothing, releasing the base of a recorded block
removes that block from the record, and releasing any other pointer (never handed
out, or released before) is an error. -/
def free (h : Heap) (p : Nat) : Option Heap :=
  if p = 0 then some h
  else if h.any (fun b => b.base == p) then some (h.eraseP (fun b => b.base == p))
  else none

/-- The loop `for (block : blocks_) std::free(block);` of both destructors; yields
the number of `std::free` calls made and the record left afterwards. -/
def freeAll : List Nat → Heap → Option (Nat × Heap)
  | [], h => some (0, h)
  | block :: blocks, h =>
    match free h block with
    | none => none
    | some h1 =>
      match freeAll blocks h1 with
      | none => none
      | some (n, h2) => some (n + 1, h2)

/-- The destructor `LevelDBArena::~LevelDBArena`. -/
def LevelDBArena.dtor (w : Heap × LevelDBArena) : Option (Nat × Heap) :=
  freeAll w.2.blocks_ w.1

/-- The destructor `SimpleArena::~SimpleArena`. -/
def SimpleArena.dtor (w : Heap × SimpleArena) : Option (Nat × Heap) :=
  freeAll w.2.blocks_ w.1

/-- A system allocator that never fails. -/
def MallocTotal (malloc : Malloc) : Prop := ∀ (h : Heap) (n : Nat), malloc h n ≠ 0

/-- What one call may do to the record of the system allocator and to `blocks_`:
nothing, or append one block to both. -/
def Grows (h : Heap) (blocks : List Nat) (h1 : Heap) (blocks1 : List Nat) : Prop :=
  (h1 = h ∧ blocks1 = blocks) ∨
    ∃ b : Block, b.base ≠ 0 ∧ h1 = h ++ [b] ∧ blocks1 = blocks ++ [b.base]


/-- The cursor of a `SimpleArena` against the record `h` of the system allocator:
null with nothing remaining, or at an offset `o` into the last block, with
`o + bytes_remaining_` the size that block was acquired with. -/
def SimpleArena.CursorInLast (h : Heap) (a : SimpleArena) : Prop :=
  (a.alloc_ptr_ = 0 ∧ a.bytes_remaining_ = 0) ∨
    ∃ b o, h.getLast? = some b ∧ a.blocks_.getLast? = some b.base ∧
      a.alloc_ptr_ = b.base + o ∧ o + a.bytes_remaining_ = b.size

namespace LevelDBArena

/-- Ghost state: the index in `blocks_` of the standard block acquired most
recently, that is of the block that the call `AllocateNewBlock(kBlockSize)` of
`AllocateFallback` pushed last; `none` while no such call was made.
`standardBlock malloc reqs w i` is its value after the calls `reqs` made from the
state `w`, in which it was `i`. -/
def standardBlock (malloc : Malloc) : List Nat → Heap × LevelDBArena → Option Nat → Option Nat
  | [], _, i => i
  | n :: ns, w, i =>
    match allocate malloc n w with
    | none => i
    | some (_, w1) =>
      standardBlock malloc ns w1
        (if n ≤ w.2.alloc_bytes_remaining_ then i
         else if n > kBlockSize / 4 then i
         else some w.2.blocks_.length)

/-- The cursor of a `LevelDBArena` against the record `h` and the standard block of
index `i`: null with nothing remaining when there is no standard block, else at an
offset `o ≤ kBlockSize` into that block, of `kBlockSize` bytes, with
`kBlockSize - o` bytes remaining. -/
def StandardCursor (h : Heap) (a : LevelDBArena) : Option Nat → Prop
  | none => a.alloc_ptr_ = 0 ∧ a.alloc_bytes_remaining_ = 0
  | some i => ∃ b o, h[i]? = some b ∧ a.blocks_[i]? = some b.base ∧ b.size = kBlockSize ∧
      o ≤ kBlockSize ∧ a.alloc_ptr_ = b.base + o ∧ a.alloc_bytes_remaining_ = kBlockSize - o

end LevelDBArena

/-- The pointers `p`, into the blocks of `h1`, and `q`, into the blocks of `h2`, are
both null, or lie at the same offset in the blocks of the same index. -/
def SamePlace (h1 h2 : Heap) (p q : Nat) : Prop :=
  (p = 0 ∧ q = 0) ∨
    ∃ (j o : Nat) (b c : Block), h1[j]? = some b ∧ h2[j]? = some c ∧ o ≤ b.size ∧ o ≤ c.size ∧
      p = b.base + o ∧ q = c.base + o

/-- The simulation between a `SimpleArena` of block size 4096 and a `LevelDBArena`
on requests of at most `kBlockSize / 4` bytes: equal block sizes, equal remaining
counts, cursors at the same place. -/
structure Agree (w1 : Heap × SimpleArena) (w2 : Heap × LevelDBArena) : Prop where
  block_size : w1.2.block_size_ = 4096
  sizes : w1.1.map Block.size = w2.1.map Block.size
  remaining : w1.2.bytes_remaining_ = w2.2.alloc_bytes_remaining_
  remaining_le : w2.2.alloc_bytes_remaining_ ≤ 4096
  cursor : (w1.2.alloc_ptr_ = 0 ∧ w2.2.alloc_ptr_ = 0 ∧ w2.2.alloc_bytes_remaining_ = 0) ∨
    ∃ (j o : Nat) (b c : Block), w1.1[j]? = some b ∧ w2.1[j]? = some c ∧ b.size = 4096 ∧ c.size = 4096 ∧
      o + w2.2.alloc_bytes_remaining_ = 4096 ∧
      w1.2.alloc_ptr_ = b.base + o ∧ w2.2.alloc_ptr_ = c.base + o

/-! ## Arithmetic of `size_t` -/

/-- The wrapping subtraction is subtraction modulo `2 ^ 64`. -/
theorem subSz_eq_mod (a b : Nat) (hb : b ≤ SIZE) : subSz a b = (a + (SIZE - b)) % SIZE := by
  unfold subSz
  unfold SIZE at *
  push_cast
  omega

theorem subSz_of_le {a b : Nat} (hb : b ≤ a) (ha : a < SIZE) : subSz a b = a - b := by
  unfold subSz
  unfold SIZE at *
  push_cast
  omega

theorem land_high_mask (m k : Nat) (hm : m < 2 ^ 64) (hk : k ≤ 64) :
    Nat.land m (2 ^ 64 - 2 ^ k) = 2 ^ k * (m / 2 ^ k) := by
  show m &&& (2 ^ 64 - 2 ^ k) = 2 ^ k * (m / 2 ^ k)
  have hpos : 0 < 2 ^ k := Nat.two_pow_pos k
  have hle : 2 ^ k ≤ 2 ^ 64 := Nat.pow_le_pow_right (by decide) hk
  have hmask : 2 ^ 64 - 2 ^ k = 2 ^ 64 - ((2 ^ k - 1) + 1) := by omega
  apply Nat.eq_of_testBit_eq
  intro i
  rw [Nat.testBit_and, hmask, Nat.testBit_two_pow_sub_succ (by omega), Nat.testBit_two_pow_sub_one,
    Nat.testBit_mul_pow_two, ← Nat.shiftRight_eq_div_pow, Nat.testBit_shiftRight]
  by_cases h1 : i < k
  · simp [h1, Nat.not_le.mpr h1]
  · have h1b : k ≤ i := Nat.le_of_not_lt h1
    have h2 : k + (i - k) = i := by omega
    rw [h2]
    by_cases h3 : i < 64
    · simp [h1, h1b, h3]
    · have : m < 2 ^ i := lt_of_lt_of_le hm (Nat.pow_le_pow_right (by decide) (by omega))
      simp [Nat.testBit_lt_two_pow this]

theorem two_pow_lt_SIZE {k : Nat} (hk : k < 64) : 2 ^ k < SIZE := by
  unfold SIZE
  exact Nat.pow_lt_pow_right (by decide) hk

theorem subSz_addSz_one (n a : Nat) (ha : 0 < a) :
    subSz (addSz n a) 1 = (n + a - 1) % SIZE := by
  unfold subSz addSz SIZE
  push_cast
  omega

theorem notSz_subSz_one (a : Nat) (ha : 0 < a) (hlt : a < SIZE) :
    notSz (subSz a 1) = 2 ^ 64 - a := by
  unfold notSz subSz
  unfold SIZE at *
  push_cast
  omega

theorem wrapped_lt (n a : Nat) (hn : n < SIZE) (hlt : a < SIZE) (hwrap : SIZE ≤ n + a - 1) :
    (n + a - 1) % SIZE < a := by
  unfold SIZE at *
  omega

/-! ## Single calls of `LevelDBArena::allocate` -/

namespace LevelDBArena

theorem allocate_eq_dedicated (malloc : Malloc) (h : Heap) (a : LevelDBArena) (bytes : Nat)
    (hfit : a.alloc_bytes_remaining_ < bytes) (hbig : kBlockSize / 4 < bytes)
    (hm : malloc h bytes ≠ 0) :
    allocate malloc bytes (h, a) =
      some (malloc h bytes, h ++ [⟨malloc h bytes, bytes⟩],
        { alloc_ptr_ := a.alloc_ptr_, alloc_bytes_remaining_ := a.alloc_bytes_remaining_,
          blocks_ := a.blocks_ ++ [malloc h bytes] }) := by
  simp [allocate, AllocateFallback, AllocateNewBlock, Nat.not_le.mpr hfit, hbig, hm]

theorem allocate_eq_refill (malloc : Malloc) (h : Heap) (a : LevelDBArena) (bytes : Nat)
    (hfit : a.alloc_bytes_remaining_ < bytes) (hsmall : bytes ≤ kBlockSize / 4)
    (hm : malloc h kBlockSize ≠ 0) :
    allocate malloc bytes (h, a) =
      some (malloc h kBlockSize, h ++ [⟨malloc h kBlockSize, 4096⟩],
        { alloc_ptr_ := malloc h kBlockSize + bytes, alloc_bytes_remaining_ := 4096 - bytes,
          blocks_ := a.blocks_ ++ [malloc h kBlockSize] }) := by
  have hk : kBlockSize = 4096 := rfl
  have hs : subSz 4096 bytes = 4096 - bytes :=
    subSz_of_le (by rw [hk] at hsmall; omega) (by decide)
  simp [allocate, AllocateFallback, AllocateNewBlock, Nat.not_le.mpr hfit,
    Nat.not_lt.mpr hsmall, hm]
  simp [hk, hs]

theorem allocate_eq_fast (malloc : Malloc) (h : Heap) (a : LevelDBArena) (bytes : Nat)
    (hwf : a.alloc_bytes_remaining_ < SIZE) (hfit : bytes ≤ a.alloc_bytes_remaining_) :
    allocate malloc bytes (h, a) =
      some (a.alloc_ptr_, h,
        { alloc_ptr_ := a.alloc_ptr_ + bytes,
          alloc_bytes_remaining_ := a.alloc_bytes_remaining_ - bytes,
          blocks_ := a.blocks_ }) := by
  simp [allocate, hfit, subSz_of_le hfit hwf]

/-- C2: when `bytes` neither fits in `alloc_bytes_remaining_` nor is at most
`kBlockSize / 4`, `allocate` obtains one block of exactly `bytes` bytes from the
system allocator, records it at the end of `blocks_`, returns its base, and leaves
`alloc_ptr_` and `alloc_bytes_remaining_` untouched. -/
theorem allocate_dedicated_block (malloc : Malloc) (h : Heap) (a : LevelDBArena) (bytes : Nat)
    (hfit : a.alloc_bytes_remaining_ < bytes) (hbig : kBlockSize / 4 < bytes)
    (hm : malloc h bytes ≠ 0) :
    allocate malloc bytes (h, a) =
      some (malloc h bytes, h ++ [⟨malloc h bytes, bytes⟩],
        { alloc_ptr_ := a.alloc_ptr_, alloc_bytes_remaining_ := a.alloc_bytes_remaining_,
          blocks_ := a.blocks_ ++ [malloc h bytes] }) :=
  allocate_eq_dedicated malloc h a bytes hfit hbig hm

theorem allocate_dedicated_block_witness :
    allocate bumpMalloc 1025 ([⟨16, 4096⟩], ⟨3112, 1000, [16]⟩) =
      some (4128, [⟨16, 4096⟩, ⟨4128, 1025⟩], ⟨3112, 1000, [16, 4128]⟩) :=
  allocate_dedicated_block bumpMalloc [⟨16, 4096⟩] ⟨3112, 1000, [16]⟩ 1025
    (by decide) (by decide) (by decide)

/-- C3: when `bytes` does not fit in `alloc_bytes_remaining_` and is at most
`kBlockSize / 4` (the bound included), `allocate` obtains one block of `kBlockSize`
bytes, records it at the end of `blocks_`, returns its base, and leaves the cursor
at `base + bytes` with `kBlockSize - bytes` bytes remaining. -/
theorem allocate_standard_refill (malloc : Malloc) (h : Heap) (a : LevelDBArena) (bytes : Nat)
    (hfit : a.alloc_bytes_remaining_ < bytes) (hsmall : bytes ≤ kBlockSize / 4)
    (hm : malloc h kBlockSize ≠ 0) :
    allocate malloc bytes (h, a) =
      some (malloc h kBlockSize, h ++ [⟨malloc h kBlockSize, 4096⟩],
        { alloc_ptr_ := malloc h kBlockSize + bytes, alloc_bytes_remaining_ := 4096 - bytes,
          blocks_ := a.blocks_ ++ [malloc h kBlockSize] }) :=
  allocate_eq_refill malloc h a bytes hfit hsmall hm

theorem allocate_standard_refill_witness :
    allocate bumpMalloc 1024 ([⟨16, 4096⟩], ⟨3112, 1000, [16]⟩) =
      some (4128, [⟨16, 4096⟩, ⟨4128, 4096⟩], ⟨5152, 3072, [16, 4128]⟩) :=
  allocate_standard_refill bumpMalloc [⟨16, 4096⟩] ⟨3112, 1000, [16]⟩ 1024
    (by decide) (by decide) (by decide)

/-- C4: when `bytes` fits in `alloc_bytes_remaining_`, `allocate` returns the old
`alloc_ptr_`, advances `alloc_ptr_` by `bytes`, lowers `alloc_bytes_remaining_` by
`bytes`, and neither calls the system allocator nor changes `blocks_`; a request
of exactly `alloc_bytes_remaining_` bytes is served so and leaves zero bytes. -/
theorem allocate_fast_path (malloc : Malloc) (h : Heap) (a : LevelDBArena) (bytes : Nat)
    (hwf : a.alloc_bytes_remaining_ < SIZE) (hfit : bytes ≤ a.alloc_bytes_remaining_) :
    allocate malloc bytes (h, a) =
        some (a.alloc_ptr_, h,
          { alloc_ptr_ := a.alloc_ptr_ + bytes,
            alloc_bytes_remaining_ := a.alloc_bytes_remaining_ - bytes,
            blocks_ := a.blocks_ }) ∧
      (bytes = a.alloc_bytes_remaining_ →
        allocate malloc bytes (h, a) =
          some (a.alloc_ptr_, h,
            { alloc_ptr_ := a.alloc_ptr_ + bytes, alloc_bytes_remaining_ := 0,
              blocks_ := a.blocks_ })) := by
  have h1 := allocate_eq_fast malloc h a bytes hwf hfit
  refine ⟨h1, fun heq => ?_⟩
  rw [h1, heq, Nat.sub_self]

theorem allocate_fast_path_witness :
    allocate bumpMalloc 1000 ([⟨16, 4096⟩], ⟨3112, 1000, [16]⟩) =
        some (3112, [⟨16, 4096⟩], ⟨4112, 0, [16]⟩) ∧
      (1000 = 1000 →
        allocate bumpMalloc 1000 ([⟨16, 4096⟩], ⟨3112, 1000, [16]⟩) =
          some (3112, [⟨16, 4096⟩], ⟨4112, 0, [16]⟩)) :=
  allocate_fast_path bumpMalloc [⟨16, 4096⟩] ⟨3112, 1000, [16]⟩ 1000 (by decide) (by decide)

end LevelDBArena

/-! ## `SimpleArena::align` -/

namespace SimpleArena

/-- The value of `align` on a power of two, wrapping included. -/
theorem align_two_pow (n k : Nat) (hk : k < 64) :
    align n (2 ^ k) = 2 ^ k * ((n + 2 ^ k - 1) % SIZE / 2 ^ k) := by
  have hpos : 0 < 2 ^ k := Nat.two_pow_pos k
  have hlt : 2 ^ k < SIZE := two_pow_lt_SIZE hk
  unfold align
  rw [subSz_addSz_one n _ hpos, notSz_subSz_one _ hpos hlt]
  exact land_high_mask _ k (Nat.mod_lt _ (by decide)) (by omega)

theorem align_of_fits (n k : Nat) (hk : k < 64) (hfit : n + 2 ^ k - 1 < SIZE) :
    align n (2 ^ k) = (n + 2 ^ k - 1) / 2 ^ k * 2 ^ k := by
  rw [align_two_pow n k hk, Nat.mod_eq_of_lt hfit, Nat.mul_comm]

theorem align_of_wraps (n k : Nat) (hn : n < SIZE) (hk : k < 64) (hwrap : SIZE ≤ n + 2 ^ k - 1) :
    align n (2 ^ k) = 0 := by
  rw [align_two_pow n k hk, Nat.div_eq_of_lt (wrapped_lt n _ hn (two_pow_lt_SIZE hk) hwrap),
    Nat.mul_zero]

theorem align_spec (n k : Nat) (hk : k < 64) (hfit : n + 2 ^ k - 1 < SIZE) :
    align n (2 ^ k) = (n + 2 ^ k - 1) / 2 ^ k * 2 ^ k ∧
      2 ^ k ∣ align n (2 ^ k) ∧ n ≤ align n (2 ^ k) ∧ align n (2 ^ k) - n < 2 ^ k ∧
      ∀ m, 2 ^ k ∣ m → n ≤ m → align n (2 ^ k) ≤ m := by
  have hpos : 0 < 2 ^ k := Nat.two_pow_pos k
  have he := align_of_fits n k hk hfit
  have hdm := Nat.div_add_mod (n + 2 ^ k - 1) (2 ^ k)
  have hmod := Nat.mod_lt (n + 2 ^ k - 1) hpos
  rw [Nat.mul_comm] at hdm
  rw [← he] at hdm
  refine ⟨he, ⟨_, by rw [he, Nat.mul_comm]⟩, by omega, by omega, ?_⟩
  rintro m ⟨c, rfl⟩ hnm
  rw [he, Nat.mul_comm]
  apply Nat.mul_le_mul_left
  by_contra hc
  have hc2 : c + 1 ≤ (n + 2 ^ k - 1) / 2 ^ k := by omega
  have := Nat.mul_le_mul_left (2 ^ k) hc2
  rw [Nat.mul_comm _ ((n + 2 ^ k - 1) / 2 ^ k), ← he, Nat.mul_add] at this
  omega

/-- C10: for a power-of-two alignment `2 ^ k` that is a `size_t` and a size `n`
with `n + 2 ^ k - 1` representable, `align n (2 ^ k)` is `ceil(n / 2 ^ k) * 2 ^ k`:
a multiple of the alignment, at least `n`, less than one alignment above `n`, and
below every other multiple of the alignment that is at least `n`. -/
theorem align_least_multiple (n k : Nat) (hk : k < 64) (hfit : n + 2 ^ k - 1 < SIZE) :
    align n (2 ^ k) = (n + 2 ^ k - 1) / 2 ^ k * 2 ^ k ∧
      2 ^ k ∣ align n (2 ^ k) ∧ n ≤ align n (2 ^ k) ∧ align n (2 ^ k) - n < 2 ^ k ∧
      ∀ m, 2 ^ k ∣ m → n ≤ m → align n (2 ^ k) ≤ m :=
  align_spec n k hk hfit

theorem align_least_multiple_witness :
    align 13 (2 ^ 3) = (13 + 2 ^ 3 - 1) / 2 ^ 3 * 2 ^ 3 ∧
      2 ^ 3 ∣ align 13 (2 ^ 3) ∧ 13 ≤ align 13 (2 ^ 3) ∧ align 13 (2 ^ 3) - 13 < 2 ^ 3 ∧
      ∀ m, 2 ^ 3 ∣ m → 13 ≤ m → align 13 (2 ^ 3) ≤ m :=
  align_least_multiple 13 3 (by decide) (by decide)

end SimpleArena

/-! ## Degenerate requests -/

theorem subSz_zero {a : Nat} (ha : a < SIZE) : subSz a 0 = a := by
  simpa using subSz_of_le (Nat.zero_le a) ha

theorem LevelDBArena.allocate_zero (malloc : Malloc) (h : Heap) (a : LevelDBArena)
    (hwf : a.alloc_bytes_remaining_ < SIZE) :
    LevelDBArena.allocate malloc 0 (h, a) = some (a.alloc_ptr_, h, a) := by
  simp [LevelDBArena.allocate, subSz_zero hwf]

theorem SimpleArena.allocate_of_align_zero (malloc : Malloc) (h : Heap) (a : SimpleArena)
    (bytes alignment : Nat) (hz : SimpleArena.align bytes alignment = 0)
    (hwf : a.bytes_remaining_ < SIZE) :
    SimpleArena.allocate malloc bytes alignment (h, a) = some (a.alloc_ptr_, h, a) := by
  simp [SimpleArena.allocate, hz, subSz_zero hwf]

/-- C8, as the code has it: a zero-byte request is served on the fast path of
either arena.  It returns the current `alloc_ptr_`, whatever that is, calls the
system allocator not at all and leaves the arena as it was. -/
theorem zero_byte_request_returns_cursor (malloc : Malloc) (h : Heap) (a : LevelDBArena)
    (s : SimpleArena) (k : Nat) (hk : k < 64) (ha : a.alloc_bytes_remaining_ < SIZE)
    (hs : s.bytes_remaining_ < SIZE) :
    LevelDBArena.allocate malloc 0 (h, a) = some (a.alloc_ptr_, h, a) ∧
      SimpleArena.allocate malloc 0 (2 ^ k) (h, s) = some (s.alloc_ptr_, h, s) := by
  refine ⟨LevelDBArena.allocate_zero malloc h a ha,
    SimpleArena.allocate_of_align_zero malloc h s 0 (2 ^ k) ?_ hs⟩
  have hpos : 0 < 2 ^ k := Nat.two_pow_pos k
  have hfit : 0 + 2 ^ k - 1 < SIZE := by
    have := two_pow_lt_SIZE hk
    omega
  rw [SimpleArena.align_of_fits 0 k hk hfit, Nat.div_eq_of_lt (by omega), Nat.zero_mul]

theorem zero_byte_request_returns_cursor_witness :
    LevelDBArena.allocate bumpMalloc 0 ([⟨16, 4096⟩], ⟨24, 4088, [16]⟩) =
        some (24, [⟨16, 4096⟩], ⟨24, 4088, [16]⟩) ∧
      SimpleArena.allocate bumpMalloc 0 (2 ^ 4) ([⟨16, 4096⟩], ⟨4096, [16], 32, 4080⟩) =
        some (32, [⟨16, 4096⟩], ⟨4096, [16], 32, 4080⟩) :=
  zero_byte_request_returns_cursor bumpMalloc [⟨16, 4096⟩] ⟨24, 4088, [16]⟩
    ⟨4096, [16], 32, 4080⟩ 4 (by decide) (by decide) (by decide)

/-- C8 fails on the code: on a freshly constructed arena a zero-byte request returns
the null pointer and acquires nothing, in both arenas; and after an 8-byte request
a zero-byte request and the request after it return the same pointer. -/
theorem zero_byte_request_counterexample :
    LevelDBArena.allocate bumpMalloc 0 ([], LevelDBArena.ctor) =
        some (0, [], LevelDBArena.ctor) ∧
      SimpleArena.allocate bumpMalloc 0 16 ([], SimpleArena.ctor 4096) =
        some (0, [], SimpleArena.ctor 4096) ∧
      (LevelDBArena.allocateAll bumpMalloc [8, 0, 8] ([], LevelDBArena.ctor)).map
        (fun r => r.1) = some [(16, 8), (24, 0), (24, 8)] := by
  decide

/-! ## Overflow in the rounding of `SimpleArena` -/

namespace SimpleArena

/-- C9, as the code has it: `align` rounds in wrapping `size_t` arithmetic and
`allocate` checks nothing.  While `n + 2 ^ k - 1` is representable the rounded size
is at least `n`; once it exceeds the largest `size_t` the rounded size is `0`, and
`allocate` returns the current `alloc_ptr_` without failing and without changing
the arena. -/
theorem allocate_rounding_wraps (malloc : Malloc) (h : Heap) (a : SimpleArena) (n k : Nat)
    (hn : n < SIZE) (hk : k < 64) (hwf : a.bytes_remaining_ < SIZE) :
    (n + 2 ^ k - 1 < SIZE → n ≤ align n (2 ^ k)) ∧
      (SIZE ≤ n + 2 ^ k - 1 →
        align n (2 ^ k) = 0 ∧ allocate malloc n (2 ^ k) (h, a) = some (a.alloc_ptr_, h, a)) := by
  refine ⟨fun hfit => (align_spec n k hk hfit).2.2.1, fun hwrap => ?_⟩
  have hz := align_of_wraps n k hn hk hwrap
  exact ⟨hz, allocate_of_align_zero malloc h a n (2 ^ k) hz hwf⟩

theorem allocate_rounding_wraps_witness :
    align (2 ^ 64 - 1) (2 ^ 4) = 0 ∧
      allocate bumpMalloc (2 ^ 64 - 1) (2 ^ 4) ([⟨16, 4096⟩], ⟨4096, [16], 32, 4080⟩) =
        some (32, [⟨16, 4096⟩], ⟨4096, [16], 32, 4080⟩) :=
  (allocate_rounding_wraps bumpMalloc [⟨16, 4096⟩] ⟨4096, [16], 32, 4080⟩ (2 ^ 64 - 1) 4
    (by decide) (by decide) (by decide)).2 (by decide)

/-- C9 fails on the code: the request `(2 ^ 64 - 1, 16)` has
`size + alignment - 1` above the largest `size_t`, yet `allocate` does not fail; it
rounds the size to `0` and returns the cursor `32` of the arena. -/
theorem allocate_rounding_counterexample :
    SIZE - 1 < (2 ^ 64 - 1) + 16 - 1 ∧ align (2 ^ 64 - 1) 16 = 0 ∧
      allocate bumpMalloc (2 ^ 64 - 1) 16 ([⟨16, 4096⟩], ⟨4096, [16], 32, 4080⟩) =
        some (32, [⟨16, 4096⟩], ⟨4096, [16], 32, 4080⟩) := by
  decide

/-- C7 fails on the code: on a fresh arena of block size 4096, with the system
allocator handing out the 16-aligned base `16`, the calls `allocate(1, 1)` and
`allocate(8, 8)` return `16` and `17`; the second address is no multiple of its
alignment `8`. -/
theorem allocate_misaligned :
    bumpMalloc [] 4096 % 16 = 0 ∧
      allocateAll bumpMalloc [(1, 1), (8, 8)] ([], ctor 4096) =
        some ([16, 17], [⟨16, 4096⟩], ⟨4096, [16], 25, 4087⟩) ∧
      17 % 8 ≠ 0 := by
  decide

end SimpleArena

/-! ## The scenario of the specification -/

namespace LevelDBArena

/-- C5, as the code has it: the requests `[100, 100, 4000, 50, 2000, 10]` on a fresh
arena acquire two blocks, a standard one of 4096 bytes and a dedicated one of 4000
bytes.  The 2000-byte request fits in the 3846 bytes left in the standard block and
is carved from it on the fast path; 1836 bytes remain at the end. -/
theorem scenario_blocks (malloc : Malloc) (hm1 : malloc [] 4096 ≠ 0)
    (hm2 : malloc [⟨malloc [] 4096, 4096⟩] 4000 ≠ 0) :
    allocateAll malloc [100, 100, 4000, 50, 2000, 10] ([], ctor) =
      some ([(malloc [] 4096, 100), (malloc [] 4096 + 100, 100),
          (malloc [⟨malloc [] 4096, 4096⟩] 4000, 4000), (malloc [] 4096 + 200, 50),
          (malloc [] 4096 + 250, 2000), (malloc [] 4096 + 2250, 10)],
        [⟨malloc [] 4096, 4096⟩, ⟨malloc [⟨malloc [] 4096, 4096⟩] 4000, 4000⟩],
        { alloc_ptr_ := malloc [] 4096 + 2260, alloc_bytes_remaining_ := 1836,
          blocks_ := [malloc [] 4096, malloc [⟨malloc [] 4096, 4096⟩] 4000] }) := by
  have e1 := allocate_eq_refill malloc [] ctor 100 (by decide) (by decide) hm1
  have e2 := (allocate_eq_fast malloc [⟨malloc [] 4096, 4096⟩]
    ⟨malloc [] 4096 + 100, 3996, [malloc [] 4096]⟩ 100
    (show 3996 < SIZE by decide) (show 100 ≤ 3996 by decide))
  have e3 := allocate_eq_dedicated malloc [⟨malloc [] 4096, 4096⟩]
    ⟨malloc [] 4096 + 200, 3896, [malloc [] 4096]⟩ 4000
    (show 3896 < 4000 by decide) (by decide) hm2
  have e4 := (allocate_eq_fast malloc
    [⟨malloc [] 4096, 4096⟩, ⟨malloc [⟨malloc [] 4096, 4096⟩] 4000, 4000⟩]
    ⟨malloc [] 4096 + 200, 3896, [malloc [] 4096, malloc [⟨malloc [] 4096, 4096⟩] 4000]⟩
    50 (show 3896 < SIZE by decide) (show 50 ≤ 3896 by decide))
  have e5 := (allocate_eq_fast malloc
    [⟨malloc [] 4096, 4096⟩, ⟨malloc [⟨malloc [] 4096, 4096⟩] 4000, 4000⟩]
    ⟨malloc [] 4096 + 250, 3846, [malloc [] 4096, malloc [⟨malloc [] 4096, 4096⟩] 4000]⟩
    2000 (show 3846 < SIZE by decide) (show 2000 ≤ 3846 by decide))
  have e6 := (allocate_eq_fast malloc
    [⟨malloc [] 4096, 4096⟩, ⟨malloc [⟨malloc [] 4096, 4096⟩] 4000, 4000⟩]
    ⟨malloc [] 4096 + 2250, 1846, [malloc [] 4096, malloc [⟨malloc [] 4096, 4096⟩] 4000]⟩
    10 (show 1846 < SIZE by decide) (show 10 ≤ 1846 by decide))
  simp only [kBlockSize, ctor, List.nil_append, List.cons_append, Nat.add_assoc]
    at e1 e2 e3 e4 e5 e6
  norm_num at e1 e2 e4 e5 e6
  simp only [allocateAll, ctor]
  rw [e1]
  simp only []
  rw [e2]
  simp only []
  rw [e3]
  simp only []
  rw [e4]
  simp only []
  rw [e5]
  simp only []
  rw [e6]

theorem scenario_blocks_witness :
    allocateAll bumpMalloc [100, 100, 4000, 50, 2000, 10] ([], ctor) =
      some ([(16, 100), (116, 100), (4128, 4000), (216, 50), (266, 2000), (2266, 10)],
        [⟨16, 4096⟩, ⟨4128, 4000⟩], ⟨2276, 1836, [16, 4128]⟩) :=
  scenario_blocks bumpMalloc (by decide) (by decide)

/-- C5 fails on the code: the scenario acquires two blocks, of 4096 and 4000 bytes,
and not three; the 2000-byte request acquires none. -/
theorem scenario_counterexample :
    (allocateAll bumpMalloc [100, 100, 4000, 50, 2000, 10] ([], ctor)).map
        (fun r => (r.2.1.map Block.size, r.2.2.blocks_.length)) = some ([4096, 4000], 2) ∧
      (allocateAll bumpMalloc [100, 100, 4000, 50] ([], ctor)).map
        (fun r => r.2.1.map Block.size) = some [4096, 4000] := by
  decide

end LevelDBArena

/-! ## No overlap in `LevelDBArena` -/

theorem Apart.symm {r s : Nat × Nat} (h : Apart r s) : Apart s r := Or.symm h

/-- A range inside one block is apart from a range inside a block apart from it. -/
theorem apart_of_inside {r s : Nat × Nat} {b c : Block} (hr : Inside r b) (hs : Inside s c)
    (hbc : Apart (b.base, b.size) (c.base, c.size)) : Apart r s := by
  simp only [Apart, Inside] at *
  omega

namespace LevelDBArena

theorem Inv.ctor : Inv [] ctor [] where
  blocks_apart := List.Pairwise.nil
  recorded := rfl
  remaining_le := by decide
  cursor := Or.inl ⟨rfl, rfl⟩
  regions_inside := by simp
  regions_free := by simp
  regions_apart := List.Pairwise.nil

theorem Inv.fast {h : Heap} {a : LevelDBArena} {R : List (Nat × Nat)} (hI : Inv h a R)
    (n : Nat) (hn : 0 < n) (hfit : n ≤ a.alloc_bytes_remaining_) :
    Inv h ⟨a.alloc_ptr_ + n, a.alloc_bytes_remaining_ - n, a.blocks_⟩
      (R ++ [(a.alloc_ptr_, n)]) := by
  obtain ⟨b, hb, hin⟩ : ∃ b ∈ h, Inside (a.alloc_ptr_, a.alloc_bytes_remaining_) b := by
    rcases hI.cursor with ⟨_, h0⟩ | hc
    · omega
    · exact hc
  have hle := hI.remaining_le
  refine ⟨hI.blocks_apart, hI.recorded, ?_, Or.inr ⟨b, hb, ?_⟩, ?_, ?_, ?_⟩
  · show a.alloc_bytes_remaining_ - n ≤ kBlockSize
    omega
  · simp only [Inside] at *
    omega
  · intro r hr
    rcases List.mem_append.mp hr with hr | hr
    · exact hI.regions_inside r hr
    · rw [List.mem_singleton.mp hr]
      refine ⟨hn, b, hb, ?_⟩
      simp only [Inside] at *
      omega
  · intro r hr
    rcases List.mem_append.mp hr with hr | hr
    · have := hI.regions_free r hr
      simp only [Apart] at *
      omega
    · rw [List.mem_singleton.mp hr]
      simp only [Apart]
      omega
  · refine List.pairwise_append.mpr ⟨hI.regions_apart, List.pairwise_singleton _ _, ?_⟩
    intro r hr s hs
    rw [List.mem_singleton.mp hs]
    have := hI.regions_free r hr
    simp only [Apart] at *
    omega

/-- What a new block `c`, apart from all blocks of `h`, preserves when it is added. -/
theorem Inv.new_block {h : Heap} {a : LevelDBArena} {R : List (Nat × Nat)} (hI : Inv h a R)
    (c : Block) (hc : ∀ b ∈ h, Apart (c.base, c.size) (b.base, b.size)) :
    (h ++ [c]).Pairwise (fun b c => Apart (b.base, b.size) (c.base, c.size)) ∧
      a.blocks_ ++ [c.base] = (h ++ [c]).map Block.base ∧
      (∀ r ∈ R, 0 < r.2 ∧ ∃ b ∈ h ++ [c], Inside r b) ∧
      (∀ r ∈ R, ∀ s, Inside s c → Apart r s) := by
  refine ⟨?_, ?_, ?_, ?_⟩
  · refine List.pairwise_append.mpr ⟨hI.blocks_apart, List.pairwise_singleton _ _, ?_⟩
    intro b hb d hd
    rw [List.mem_singleton.mp hd]
    exact (hc b hb).symm
  · rw [hI.recorded, List.map_append, List.map_singleton]
  · intro r hr
    obtain ⟨h0, b, hb, hin⟩ := hI.regions_inside r hr
    exact ⟨h0, b, List.mem_append_left _ hb, hin⟩
  · intro r hr s hs
    obtain ⟨_, b, hb, hin⟩ := hI.regions_inside r hr
    exact apart_of_inside hin hs (hc b hb).symm

theorem Inv.dedicated {h : Heap} {a : LevelDBArena} {R : List (Nat × Nat)} (hI : Inv h a R)
    (p n : Nat) (hn : 0 < n) (hc : ∀ b ∈ h, Apart (p, n) (b.base, b.size)) :
    Inv (h ++ [⟨p, n⟩]) ⟨a.alloc_ptr_, a.alloc_bytes_remaining_, a.blocks_ ++ [p]⟩
      (R ++ [(p, n)]) := by
  obtain ⟨h1, h2, h3, h4⟩ := hI.new_block ⟨p, n⟩ hc
  have hself : Inside (p, n) ⟨p, n⟩ := ⟨Nat.le_refl _, Nat.le_refl _⟩
  refine ⟨h1, h2, hI.remaining_le, ?_, ?_, ?_, ?_⟩
  · rcases hI.cursor with h0 | ⟨b, hb, hin⟩
    · exact Or.inl h0
    · exact Or.inr ⟨b, List.mem_append_left _ hb, hin⟩
  · intro r hr
    rcases List.mem_append.mp hr with hr | hr
    · exact h3 r hr
    · rw [List.mem_singleton.mp hr]
      exact ⟨hn, ⟨p, n⟩, List.mem_append_right _ (List.mem_singleton.mpr rfl), hself⟩
  · intro r hr
    rcases List.mem_append.mp hr with hr | hr
    · exact hI.regions_free r hr
    · rw [List.mem_singleton.mp hr]
      rcases hI.cursor with ⟨h0, h0r⟩ | ⟨b, hb, hin⟩
      · show Apart (p, n) (a.alloc_ptr_, a.alloc_bytes_remaining_)
        rw [h0, h0r]
        exact Or.inr (Nat.zero_le _)
      · exact apart_of_inside hself hin (hc b hb)
  · refine List.pairwise_append.mpr ⟨hI.regions_apart, List.pairwise_singleton _ _, ?_⟩
    intro r hr s hs
    rw [List.mem_singleton.mp hs]
    exact h4 r hr _ hself

theorem Inv.refill {h : Heap} {a : LevelDBArena} {R : List (Nat × Nat)} (hI : Inv h a R)
    (p n : Nat) (hn : 0 < n) (hsmall : n ≤ kBlockSize / 4)
    (hc : ∀ b ∈ h, Apart (p, 4096) (b.base, b.size)) :
    Inv (h ++ [⟨p, 4096⟩]) ⟨p + n, 4096 - n, a.blocks_ ++ [p]⟩ (R ++ [(p, n)]) := by
  obtain ⟨h1, h2, h3, h4⟩ := hI.new_block ⟨p, 4096⟩ hc
  have hk : kBlockSize = 4096 := rfl
  rw [hk] at hsmall
  have hnew : Inside (p, n) ⟨p, 4096⟩ := by
    simp only [Inside]
    omega
  have hwin : Inside (p + n, 4096 - n) ⟨p, 4096⟩ := by
    simp only [Inside]
    omega
  have hmem : (⟨p, 4096⟩ : Block) ∈ h ++ [⟨p, 4096⟩] :=
    List.mem_append_right _ (List.mem_singleton.mpr rfl)
  refine ⟨h1, h2, ?_, Or.inr ⟨_, hmem, hwin⟩, ?_, ?_, ?_⟩
  · show 4096 - n ≤ kBlockSize
    rw [hk]
    omega
  · intro r hr
    rcases List.mem_append.mp hr with hr | hr
    · exact h3 r hr
    · rw [List.mem_singleton.mp hr]
      exact ⟨hn, _, hmem, hnew⟩
  · intro r hr
    rcases List.mem_append.mp hr with hr | hr
    · exact h4 r hr _ hwin
    · rw [List.mem_singleton.mp hr]
      exact Or.inl (Nat.le_refl _)
  · refine List.pairwise_append.mpr ⟨hI.regions_apart, List.pairwise_singleton _ _, ?_⟩
    intro r hr s hs
    rw [List.mem_singleton.mp hs]
    exact h4 r hr _ hnew

theorem kBlockSize_lt_SIZE : kBlockSize < SIZE := by decide

/-- One call of `allocate` with a non-empty request keeps the invariant. -/
theorem Inv.allocate {malloc : Malloc} (hm : MallocDisjoint malloc) {h : Heap}
    {a : LevelDBArena} {R : List (Nat × Nat)} (hI : Inv h a R) (n : Nat) (hn : 0 < n) :
    ∃ p h1 a1, allocate malloc n (h, a) = some (p, h1, a1) ∧ Inv h1 a1 (R ++ [(p, n)]) := by
  by_cases hfit : n ≤ a.alloc_bytes_remaining_
  · exact ⟨_, _, _, allocate_eq_fast malloc h a n
      (lt_of_le_of_lt hI.remaining_le kBlockSize_lt_SIZE) hfit, hI.fast n hn hfit⟩
  · by_cases hbig : kBlockSize / 4 < n
    · exact ⟨_, _, _, allocate_eq_dedicated malloc h a n (Nat.not_le.mp hfit) hbig (hm h n).1,
        hI.dedicated _ n hn (hm h n).2⟩
    · exact ⟨_, _, _, allocate_eq_refill malloc h a n (Nat.not_le.mp hfit) (Nat.not_lt.mp hbig)
        (hm h kBlockSize).1, hI.refill _ n hn (Nat.not_lt.mp hbig) (hm h kBlockSize).2⟩

/-- A sequence of non-empty requests keeps the invariant. -/
theorem Inv.allocateAll {malloc : Malloc} (hm : MallocDisjoint malloc) (reqs : List Nat) :
    ∀ {h : Heap} {a : LevelDBArena} {R : List (Nat × Nat)}, Inv h a R →
      (∀ n ∈ reqs, 1 ≤ n) →
      ∃ rs h1 a1, allocateAll malloc reqs (h, a) = some (rs, h1, a1) ∧
        rs.map Prod.snd = reqs ∧ Inv h1 a1 (R ++ rs) := by
  induction reqs with
  | nil =>
    intro h a R hI _
    exact ⟨[], h, a, rfl, rfl, by simpa using hI⟩
  | cons n ns ih =>
    intro h a R hI hreqs
    obtain ⟨p, h1, a1, he, hI1⟩ :=
      hI.allocate hm n (hreqs n (List.mem_cons_self _ _))
    obtain ⟨rs, h2, a2, he2, hlen, hI2⟩ :=
      ih hI1 (fun m hmem => hreqs m (List.mem_cons_of_mem _ hmem))
    refine ⟨(p, n) :: rs, h2, a2, ?_, ?_, ?_⟩
    · simp only [LevelDBArena.allocateAll, he, he2]
    · simp [hlen]
    · simpa using hI2

end LevelDBArena

/-! ## The concrete system allocator -/

theorem le_heapTop {h : Heap} {b : Block} (hb : b ∈ h) : b.base + b.size ≤ heapTop h := by
  induction h with
  | nil => cases hb
  | cons c t ih =>
    rcases List.mem_cons.mp hb with rfl | hb
    · exact Nat.le_max_left _ _
    · exact Nat.le_trans (ih hb) (Nat.le_max_right _ _)

theorem bumpMalloc_disjoint : MallocDisjoint bumpMalloc := by
  intro h n
  have hlt : heapTop h < (heapTop h / 16 + 1) * 16 := by omega
  refine ⟨?_, fun b hb => Or.inr ?_⟩
  · show (heapTop h / 16 + 1) * 16 ≠ 0
    omega
  · show b.base + b.size ≤ (heapTop h / 16 + 1) * 16
    have := le_heapTop hb
    omega

namespace LevelDBArena

/-- C1: on a fresh arena, with a system allocator that hands out blocks apart from
all blocks handed out before, every sequence of non-empty requests is served; the
returned regions `[p_i, p_i + n_i)` are pairwise apart, `blocks_` lists the bases of
the acquired blocks, and each region lies inside exactly one acquired block. -/
theorem allocateAll_no_overlap (malloc : Malloc) (hm : MallocDisjoint malloc)
    (reqs : List Nat) (hreqs : ∀ n ∈ reqs, 1 ≤ n) :
    ∃ rs h a, allocateAll malloc reqs ([], ctor) = some (rs, h, a) ∧
      rs.map Prod.snd = reqs ∧ a.blocks_ = h.map Block.base ∧
      rs.Pairwise Apart ∧ ∀ r ∈ rs, ∃! b, b ∈ h ∧ Inside r b := by
  obtain ⟨rs, h, a, he, hlen, hI⟩ := Inv.ctor.allocateAll hm reqs hreqs
  rw [List.nil_append] at hI
  refine ⟨rs, h, a, he, hlen, hI.recorded, hI.regions_apart, ?_⟩
  intro r hr
  obtain ⟨hpos, b, hb, hin⟩ := hI.regions_inside r hr
  refine ⟨b, ⟨hb, hin⟩, ?_⟩
  rintro c ⟨hc, hcin⟩
  by_contra hne
  have hsym : Symmetric (fun b c : Block => Apart (b.base, b.size) (c.base, c.size)) :=
    fun _ _ hbc => hbc.symm
  have := hI.blocks_apart.forall hsym hc hb hne
  simp only [Apart, Inside] at *
  omega

theorem allocateAll_no_overlap_witness :
    ∃ rs h a, allocateAll bumpMalloc [100, 5000, 1024, 2000, 3000, 1] ([], ctor) =
        some (rs, h, a) ∧
      rs.map Prod.snd = [100, 5000, 1024, 2000, 3000, 1] ∧ a.blocks_ = h.map Block.base ∧
      rs.Pairwise Apart ∧ ∀ r ∈ rs, ∃! b, b ∈ h ∧ Inside r b :=
  allocateAll_no_overlap bumpMalloc bumpMalloc_disjoint [100, 5000, 1024, 2000, 3000, 1]
    (by decide)

/-! ## Requests that share one standard block -/

theorem allocateAll_zeros (malloc : Malloc) (reqs : List Nat) (h : Heap) (a : LevelDBArena)
    (hwf : a.alloc_bytes_remaining_ < SIZE) (k : Nat) :
    allocateAll malloc (List.replicate k 0 ++ reqs) (h, a) =
      (allocateAll malloc reqs (h, a)).map
        (fun r => (List.replicate k (a.alloc_ptr_, 0) ++ r.1, r.2)) := by
  induction k with
  | zero =>
    cases hr : allocateAll malloc reqs (h, a) <;> simp [hr]
  | succ k ih =>
    rw [List.replicate_succ, List.cons_append]
    simp only [allocateAll, allocate_zero malloc h a hwf, ih]
    cases hr : allocateAll malloc reqs (h, a) <;> simp [List.replicate_succ]

/-- Requests whose sizes sum to at most `alloc_bytes_remaining_` are all carved from
the current block, one after the other. -/
theorem allocateAll_fast (malloc : Malloc) (h : Heap) (reqs : List Nat) :
    ∀ a : LevelDBArena, a.alloc_bytes_remaining_ < SIZE → reqs.sum ≤ a.alloc_bytes_remaining_ →
      ∃ rs a1, allocateAll malloc reqs (h, a) = some (rs, h, a1) ∧
        rs.map Prod.snd = reqs ∧ rs.Pairwise Apart ∧ (∀ r ∈ rs, a.alloc_ptr_ ≤ r.1) ∧
        reqs.sum + a1.alloc_bytes_remaining_ = a.alloc_bytes_remaining_ := by
  induction reqs with
  | nil =>
    intro a _ _
    exact ⟨[], a, rfl, rfl, List.Pairwise.nil, by simp, by simp⟩
  | cons n ns ih =>
    intro a hwf hsum
    rw [List.sum_cons] at hsum
    have hfit : n ≤ a.alloc_bytes_remaining_ := by omega
    obtain ⟨rs, a1, he, hlen, hap, hge, hrem⟩ :=
      ih ⟨a.alloc_ptr_ + n, a.alloc_bytes_remaining_ - n, a.blocks_⟩
        (show a.alloc_bytes_remaining_ - n < SIZE by omega)
        (show ns.sum ≤ a.alloc_bytes_remaining_ - n by omega)
    refine ⟨(a.alloc_ptr_, n) :: rs, a1, ?_, ?_, ?_, ?_, ?_⟩
    · simp only [allocateAll, allocate_eq_fast malloc h a n hwf hfit, he]
    · simp [hlen]
    · refine List.pairwise_cons.mpr ⟨fun r hr => Or.inl ?_, hap⟩
      exact hge r hr
    · intro r hr
      rcases List.mem_cons.mp hr with rfl | hr
      · exact Nat.le_refl _
      · exact Nat.le_trans (Nat.le_add_right _ _) (hge r hr)
    · rw [List.sum_cons]
      have : ns.sum + a1.alloc_bytes_remaining_ = a.alloc_bytes_remaining_ - n := hrem
      omega

/-- C6, as the code has it: on a fresh arena, a sequence of requests whose sizes sum
to at most `kBlockSize` and whose first non-zero size is at most `kBlockSize / 4`
is served from one standard block; the returned regions are pairwise apart and the
requested sizes and `alloc_bytes_remaining_` sum to `kBlockSize`. -/
theorem allocateAll_conservation (malloc : Malloc) (k n : Nat) (rest : List Nat)
    (hm : malloc [] kBlockSize ≠ 0) (hn : 1 ≤ n) (hsmall : n ≤ kBlockSize / 4)
    (hsum : (List.replicate k 0 ++ n :: rest).sum ≤ kBlockSize) :
    ∃ rs a, allocateAll malloc (List.replicate k 0 ++ n :: rest) ([], ctor) =
        some (rs, [⟨malloc [] kBlockSize, 4096⟩], a) ∧
      rs.map Prod.snd = List.replicate k 0 ++ n :: rest ∧ rs.Pairwise Apart ∧
      (List.replicate k 0 ++ n :: rest).sum + a.alloc_bytes_remaining_ = kBlockSize := by
  have hk : kBlockSize = 4096 := rfl
  have hs : (List.replicate k 0 ++ n :: rest).sum = n + rest.sum := by simp
  rw [hs] at hsum ⊢
  rw [hk] at hsum hsmall
  have e1 := allocate_eq_refill malloc [] ctor n (show 0 < n from hn) (by rw [hk]; exact hsmall) hm
  obtain ⟨rs, a1, he, hlen, hap, hge, hrem⟩ :=
    allocateAll_fast malloc [⟨malloc [] kBlockSize, 4096⟩] rest
      ⟨malloc [] kBlockSize + n, 4096 - n, ctor.blocks_ ++ [malloc [] kBlockSize]⟩
      (show 4096 - n < SIZE by unfold SIZE; omega) (show rest.sum ≤ 4096 - n by omega)
  refine ⟨List.replicate k (0, 0) ++ (malloc [] kBlockSize, n) :: rs, a1, ?_, ?_, ?_, ?_⟩
  · rw [allocateAll_zeros malloc _ [] ctor (by decide) k]
    simp only [allocateAll]
    rw [e1]
    simp only [List.nil_append]
    rw [he]
    rfl
  · simp [hlen]
  · refine List.pairwise_append.mpr ⟨?_, List.pairwise_cons.mpr ⟨fun r hr => Or.inl ?_, hap⟩, ?_⟩
    · exact List.pairwise_replicate.mpr (Or.inr (Or.inl (Nat.le_refl _)))
    · exact hge r hr
    · intro r hr s _
      rw [List.eq_of_mem_replicate hr]
      exact Or.inl (Nat.zero_le _)
  · have : rest.sum + a1.alloc_bytes_remaining_ = 4096 - n := hrem
    rw [hk]
    omega

theorem allocateAll_conservation_witness :
    ∃ rs a, allocateAll bumpMalloc (List.replicate 2 0 ++ 1024 :: [0, 3000, 72]) ([], ctor) =
        some (rs, [⟨bumpMalloc [] kBlockSize, 4096⟩], a) ∧
      rs.map Prod.snd = List.replicate 2 0 ++ 1024 :: [0, 3000, 72] ∧ rs.Pairwise Apart ∧
      (List.replicate 2 0 ++ 1024 :: [0, 3000, 72]).sum + a.alloc_bytes_remaining_ =
        kBlockSize :=
  allocateAll_conservation bumpMalloc 2 1024 [0, 3000, 72] (by decide) (by decide) (by decide)
    (by decide)

/-- C6 fails on the code: the sizes of `[2000, 2000]` sum to 4000, at most
`kBlockSize`, but each request gets a dedicated block and `alloc_bytes_remaining_`
stays 0, so sizes and remaining bytes sum to 4000 and not 4096; and the single
request `[0]` acquires no block at all and leaves the sum at 0. -/
theorem allocateAll_conservation_counterexample :
    [2000, 2000].sum ≤ kBlockSize ∧
      (allocateAll bumpMalloc [2000, 2000] ([], ctor)).map
        (fun r => (r.2.1.map Block.size, [2000, 2000].sum + r.2.2.alloc_bytes_remaining_)) =
          some ([2000, 2000], 4000) ∧
      (allocateAll bumpMalloc [0] ([], ctor)).map
        (fun r => (r.2.1.map Block.size, [0].sum + r.2.2.alloc_bytes_remaining_)) =
          some ([], 0) := by
  decide

end LevelDBArena

/-! ## Single calls of `SimpleArena::allocate` -/

theorem subSz_lt (a b : Nat) : subSz a b < SIZE := by
  unfold subSz SIZE
  push_cast
  omega

namespace SimpleArena

theorem align_lt_SIZE (n alignment : Nat) : align n alignment < SIZE :=
  Nat.lt_of_le_of_lt Nat.and_le_left (subSz_lt _ 1)

/-- The body of `allocate`, with the rounded size named. -/
theorem allocate_unfold (malloc : Malloc) (bytes alignment aligned : Nat)
    (w : Heap × SimpleArena) (hal : align bytes alignment = aligned) :
    allocate malloc bytes alignment w =
      match (if aligned > w.2.bytes_remaining_ then allocate_block malloc aligned w
        else some w) with
      | none => none
      | some (h, a) =>
        some (a.alloc_ptr_, h,
          { a with alloc_ptr_ := a.alloc_ptr_ + aligned,
                   bytes_remaining_ := subSz a.bytes_remaining_ aligned }) := by
  subst hal
  rfl

/-- The size `allocate_block` asks the system allocator for. -/
theorem allocate_block_size_ge (min_bytes block_size : Nat) :
    min_bytes ≤ (if min_bytes > block_size / 4 then min_bytes else block_size) := by
  split <;> omega

/-- The carve without a new block. -/
theorem allocate_eq_carve (malloc : Malloc) (h : Heap) (a : SimpleArena)
    (bytes alignment : Nat) (hwf : a.bytes_remaining_ < SIZE)
    (hfit : align bytes alignment ≤ a.bytes_remaining_) :
    allocate malloc bytes alignment (h, a) =
      some (a.alloc_ptr_, h,
        { block_size_ := a.block_size_, blocks_ := a.blocks_,
          alloc_ptr_ := a.alloc_ptr_ + align bytes alignment,
          bytes_remaining_ := a.bytes_remaining_ - align bytes alignment }) := by
  rw [allocate_unfold malloc bytes alignment _ (h, a) rfl]
  generalize align bytes alignment = aligned at hfit ⊢
  simp [Nat.not_lt.mpr hfit, subSz_of_le hfit hwf]

/-- The carve from a new block. -/
theorem allocate_eq_new_block (malloc : Malloc) (h : Heap) (a : SimpleArena)
    (bytes alignment size : Nat)
    (hsize : size = if align bytes alignment > a.block_size_ / 4 then align bytes alignment
      else a.block_size_)
    (hlt : size < SIZE) (hfit : a.bytes_remaining_ < align bytes alignment)
    (hm : malloc h size ≠ 0) :
    allocate malloc bytes alignment (h, a) =
      some (malloc h size, h ++ [⟨malloc h size, size⟩],
        { block_size_ := a.block_size_, blocks_ := a.blocks_ ++ [malloc h size],
          alloc_ptr_ := malloc h size + align bytes alignment,
          bytes_remaining_ := size - align bytes alignment }) := by
  rw [allocate_unfold malloc bytes alignment _ (h, a) rfl]
  generalize align bytes alignment = aligned at hsize hfit ⊢
  have hge : aligned ≤ size := by
    rw [hsize]
    exact allocate_block_size_ge aligned a.block_size_
  simp only [gt_iff_lt, hfit, if_true, allocate_block, ← hsize, hm, if_false]
  simp [subSz_of_le hge hlt]

end SimpleArena

/-! ## Large requests -/

namespace SimpleArena

/-- A call whose rounded size does not fit acquires a block and returns its base. -/
theorem allocate_acquires (malloc : Malloc) (h : Heap) (a : SimpleArena)
    (bytes alignment : Nat) (hfit : a.bytes_remaining_ < align bytes alignment)
    (hm : malloc h (if align bytes alignment > a.block_size_ / 4 then align bytes alignment
      else a.block_size_) ≠ 0) :
    ∃ a2, allocate malloc bytes alignment (h, a) =
        some (malloc h (if align bytes alignment > a.block_size_ / 4
            then align bytes alignment else a.block_size_),
          h ++ [⟨malloc h (if align bytes alignment > a.block_size_ / 4
              then align bytes alignment else a.block_size_),
            if align bytes alignment > a.block_size_ / 4 then align bytes alignment
            else a.block_size_⟩], a2) ∧
      a2.blocks_ = a.blocks_ ++ [malloc h (if align bytes alignment > a.block_size_ / 4
        then align bytes alignment else a.block_size_)] := by
  rw [allocate_unfold malloc bytes alignment _ (h, a) rfl]
  generalize align bytes alignment = aligned at hfit hm ⊢
  simp only [gt_iff_lt] at hm
  simp only [gt_iff_lt, hfit, if_true, allocate_block, hm, if_false]
  exact ⟨_, rfl, rfl⟩

theorem allocate_eq_dedicated_simple (malloc : Malloc) (h : Heap) (a : SimpleArena)
    (bytes alignment : Nat) (hfit : a.bytes_remaining_ < align bytes alignment)
    (hbig : a.block_size_ / 4 < align bytes alignment)
    (hm : malloc h (align bytes alignment) ≠ 0) :
    allocate malloc bytes alignment (h, a) =
      some (malloc h (align bytes alignment),
        h ++ [⟨malloc h (align bytes alignment), align bytes alignment⟩],
        { block_size_ := a.block_size_,
          blocks_ := a.blocks_ ++ [malloc h (align bytes alignment)],
          alloc_ptr_ := malloc h (align bytes alignment) + align bytes alignment,
          bytes_remaining_ := 0 }) := by
  have hsize : align bytes alignment =
      if align bytes alignment > a.block_size_ / 4 then align bytes alignment
      else a.block_size_ := by
    rw [if_pos hbig]
  rw [allocate_eq_new_block malloc h a bytes alignment _ hsize (align_lt_SIZE _ _) hfit hm,
    Nat.sub_self]

/-- C11, as the code has it: when the rounded size neither fits in
`bytes_remaining_` nor is at most `block_size_ / 4`, `allocate` obtains a block of
exactly the rounded size, returns its base, and moves the cursor into that block:
`alloc_ptr_` is the end of the new block and `bytes_remaining_` is `0`.  What was
left of the block before is given up: in the state so reached a call whose rounded
size is not `0` acquires a further block and returns its base, and a call whose
rounded size is `0` returns the end of the dedicated block and acquires nothing. -/
theorem allocate_dedicated_moves_cursor (malloc : Malloc) (h : Heap) (a : SimpleArena)
    (bytes alignment : Nat) (hfit : a.bytes_remaining_ < align bytes alignment)
    (hbig : a.block_size_ / 4 < align bytes alignment)
    (hm : malloc h (align bytes alignment) ≠ 0) :
    ∃ h1 a1,
      allocate malloc bytes alignment (h, a) = some (malloc h (align bytes alignment), h1, a1) ∧
      h1 = h ++ [⟨malloc h (align bytes alignment), align bytes alignment⟩] ∧
      a1 = { block_size_ := a.block_size_,
             blocks_ := a.blocks_ ++ [malloc h (align bytes alignment)],
             alloc_ptr_ := malloc h (align bytes alignment) + align bytes alignment,
             bytes_remaining_ := 0 } ∧
      (∀ bytes2 alignment2, 0 < align bytes2 alignment2 →
        malloc h1 (if align bytes2 alignment2 > a.block_size_ / 4 then align bytes2 alignment2
          else a.block_size_) ≠ 0 →
        ∃ a2, allocate malloc bytes2 alignment2 (h1, a1) =
            some (malloc h1 (if align bytes2 alignment2 > a.block_size_ / 4
                then align bytes2 alignment2 else a.block_size_),
              h1 ++ [⟨malloc h1 (if align bytes2 alignment2 > a.block_size_ / 4
                  then align bytes2 alignment2 else a.block_size_),
                if align bytes2 alignment2 > a.block_size_ / 4 then align bytes2 alignment2
                else a.block_size_⟩], a2) ∧
          a2.blocks_ = a1.blocks_ ++ [malloc h1 (if align bytes2 alignment2 > a.block_size_ / 4
            then align bytes2 alignment2 else a.block_size_)]) ∧
      (∀ bytes2 alignment2, align bytes2 alignment2 = 0 →
        allocate malloc bytes2 alignment2 (h1, a1) =
          some (malloc h (align bytes alignment) + align bytes alignment, h1, a1)) := by
  refine ⟨_, _, allocate_eq_dedicated_simple malloc h a bytes alignment hfit hbig hm, rfl, rfl,
    ?_, ?_⟩
  · intro bytes2 alignment2 hpos hm2
    exact allocate_acquires malloc _ _ bytes2 alignment2 hpos hm2
  · intro bytes2 alignment2 hz
    exact allocate_of_align_zero malloc _ _ bytes2 alignment2 hz (show 0 < SIZE by decide)

theorem allocate_dedicated_moves_cursor_witness :
    allocate bumpMalloc 5000 16 ([⟨16, 4096⟩], ⟨4096, [16], 32, 4080⟩) =
        some (4128, [⟨16, 4096⟩, ⟨4128, 5008⟩], ⟨4096, [16, 4128], 9136, 0⟩) ∧
      (∃ a2, allocate bumpMalloc 16 16
          ([⟨16, 4096⟩, ⟨4128, 5008⟩], ⟨4096, [16, 4128], 9136, 0⟩) =
            some (9152, [⟨16, 4096⟩, ⟨4128, 5008⟩, ⟨9152, 4096⟩], a2) ∧
          a2.blocks_ = [16, 4128, 9152]) ∧
      allocate bumpMalloc (2 ^ 64 - 1) 16
          ([⟨16, 4096⟩, ⟨4128, 5008⟩], ⟨4096, [16, 4128], 9136, 0⟩) =
        some (9136, [⟨16, 4096⟩, ⟨4128, 5008⟩], ⟨4096, [16, 4128], 9136, 0⟩) := by
  obtain ⟨h1, a1, he, rfl, rfl, hnext, hzero⟩ :=
    allocate_dedicated_moves_cursor bumpMalloc [⟨16, 4096⟩] ⟨4096, [16], 32, 4080⟩ 5000 16
      (by decide) (by decide) (by decide)
  exact ⟨he, hnext 16 16 (by decide) (by decide), hzero (2 ^ 64 - 1) 16 (by decide)⟩

/-- C11 fails on the code: with the cursor at `32` and 4080 bytes remaining in the
block at `16`, the request `(5000, 16)` has rounded size 5008, above both 4080 and
`4096 / 4`; the call moves the cursor to `9136` with 0 bytes remaining, and the
next request `(16, 16)` acquires a further block instead of being carved at `32`. -/
theorem allocate_dedicated_counterexample :
    align 5000 16 = 5008 ∧
      (allocate bumpMalloc 5000 16 ([⟨16, 4096⟩], ⟨4096, [16], 32, 4080⟩)).map
        (fun r => (r.2.2.alloc_ptr_, r.2.2.bytes_remaining_)) = some (9136, 0) ∧
      (allocateAll bumpMalloc [(5000, 16), (16, 16)]
        ([⟨16, 4096⟩], ⟨4096, [16], 32, 4080⟩)).map
        (fun r => (r.1, r.2.1.map Block.size)) = some ([4128, 9152], [4096, 5008, 4096]) := by
  decide

end SimpleArena

namespace LevelDBArena

/-- C13, as the code has it: a request above `kBlockSize / 4` gets a dedicated block
of exactly `bytes` bytes when it does not fit in `alloc_bytes_remaining_`; when it
fits, it is carved from the current block on the fast path and no block is
acquired. -/
theorem allocate_large_request (malloc : Malloc) (h : Heap) (a : LevelDBArena) (bytes : Nat)
    (hbig : kBlockSize / 4 < bytes) (hwf : a.alloc_bytes_remaining_ < SIZE) :
    (bytes ≤ a.alloc_bytes_remaining_ →
        allocate malloc bytes (h, a) =
          some (a.alloc_ptr_, h,
            { alloc_ptr_ := a.alloc_ptr_ + bytes,
              alloc_bytes_remaining_ := a.alloc_bytes_remaining_ - bytes,
              blocks_ := a.blocks_ })) ∧
      (a.alloc_bytes_remaining_ < bytes → malloc h bytes ≠ 0 →
        allocate malloc bytes (h, a) =
          some (malloc h bytes, h ++ [⟨malloc h bytes, bytes⟩],
            { alloc_ptr_ := a.alloc_ptr_, alloc_bytes_remaining_ := a.alloc_bytes_remaining_,
              blocks_ := a.blocks_ ++ [malloc h bytes] })) :=
  ⟨fun hfit => allocate_eq_fast malloc h a bytes hwf hfit,
    fun hfit hm => allocate_eq_dedicated malloc h a bytes hfit hbig hm⟩

theorem allocate_large_request_witness :
    (2000 ≤ 3996 →
        allocate bumpMalloc 2000 ([⟨16, 4096⟩], ⟨116, 3996, [16]⟩) =
          some (116, [⟨16, 4096⟩], ⟨116 + 2000, 3996 - 2000, [16]⟩)) ∧
      (3996 < 2000 → bumpMalloc [⟨16, 4096⟩] 2000 ≠ 0 →
        allocate bumpMalloc 2000 ([⟨16, 4096⟩], ⟨116, 3996, [16]⟩) =
          some (bumpMalloc [⟨16, 4096⟩] 2000,
            [⟨16, 4096⟩] ++ [⟨bumpMalloc [⟨16, 4096⟩] 2000, 2000⟩],
            ⟨116, 3996, [16] ++ [bumpMalloc [⟨16, 4096⟩] 2000]⟩)) :=
  allocate_large_request bumpMalloc [⟨16, 4096⟩] ⟨116, 3996, [16]⟩ 2000 (by decide) (by decide)

/-- C13 fails on the code: with 3996 bytes remaining in the standard block at `16`,
the request of 2000 bytes, above `kBlockSize / 4`, is carved from that block at
`116`; no block is acquired. -/
theorem allocate_large_request_counterexample :
    kBlockSize / 4 < 2000 ∧
      allocate bumpMalloc 2000 ([⟨16, 4096⟩], ⟨116, 3996, [16]⟩) =
        some (116, [⟨16, 4096⟩], ⟨2116, 1996, [16]⟩) ∧
      Inside (116, 2000) ⟨16, 4096⟩ := by
  decide

/-- C16: when a call of `allocate` acquires a block of `kBlockSize` bytes and moves
the cursor into it, the bytes that remained before the call are fewer than the
requested bytes and at most `kBlockSize / 4 - 1 = 1023`. -/
theorem refill_waste_bounded (malloc : Malloc) (h : Heap) (a : LevelDBArena) (bytes p : Nat)
    (hcall : allocate malloc bytes (h, a) =
      some (p, h ++ [⟨p, kBlockSize⟩],
        { alloc_ptr_ := p + bytes, alloc_bytes_remaining_ := kBlockSize - bytes,
          blocks_ := a.blocks_ ++ [p] })) :
    a.alloc_bytes_remaining_ < bytes ∧ a.alloc_bytes_remaining_ ≤ kBlockSize / 4 - 1 ∧
      kBlockSize / 4 - 1 = 1023 := by
  have hk : kBlockSize = 4096 := rfl
  refine ⟨?_, ?_, by decide⟩ <;>
  · by_cases hfit : bytes ≤ a.alloc_bytes_remaining_
    · simp [allocate, hfit] at hcall
    · by_cases hbig : kBlockSize / 4 < bytes
      · simp only [allocate, hfit, if_false, AllocateFallback, gt_iff_lt, hbig, if_true,
          AllocateNewBlock] at hcall
        split at hcall
        · cases hcall
        · simp only [Option.some.injEq, Prod.mk.injEq, List.append_cancel_left_eq,
            List.cons.injEq, Block.mk.injEq, and_true, LevelDBArena.mk.injEq] at hcall
          obtain ⟨_, ⟨_, hb⟩, _, hr, _⟩ := hcall
          omega
      · omega

theorem refill_waste_bounded_witness :
    (1000 : Nat) < 1024 ∧ 1000 ≤ kBlockSize / 4 - 1 ∧ kBlockSize / 4 - 1 = 1023 :=
  refill_waste_bounded bumpMalloc [⟨16, 4096⟩] ⟨3112, 1000, [16]⟩ 1024 4128 (by decide)

end LevelDBArena

/-! ## Bulk release -/

theorem freeAll_bases (h : Heap) (hnz : ∀ b ∈ h, b.base ≠ 0) :
    freeAll (h.map Block.base) h = some (h.length, []) := by
  induction h with
  | nil => rfl
  | cons b t ih =>
    have hb : b.base ≠ 0 := hnz b (List.mem_cons_self _ _)
    have hfree : free (b :: t) b.base = some t := by
      simp [free, hb, List.eraseP_cons]
    simp only [List.map_cons, freeAll, hfree,
      ih (fun c hc => hnz c (List.mem_cons_of_mem _ hc)), List.length_cons]

theorem Grows.recorded {h h1 : Heap} {blocks blocks1 : List Nat}
    (hg : Grows h blocks h1 blocks1)
    (hrec : blocks = h.map Block.base ∧ ∀ b ∈ h, b.base ≠ 0) :
    blocks1 = h1.map Block.base ∧ ∀ b ∈ h1, b.base ≠ 0 := by
  rcases hg with ⟨rfl, rfl⟩ | ⟨b, hb, rfl, rfl⟩
  · exact hrec
  · refine ⟨by rw [hrec.1, List.map_append, List.map_singleton], fun c hc => ?_⟩
    rcases List.mem_append.mp hc with hc | hc
    · exact hrec.2 c hc
    · rw [List.mem_singleton.mp hc]
      exact hb

namespace LevelDBArena

theorem allocate_grows (malloc : Malloc) (bytes : Nat) (h : Heap) (a : LevelDBArena)
    (p : Nat) (h1 : Heap) (a1 : LevelDBArena)
    (hcall : allocate malloc bytes (h, a) = some (p, h1, a1)) :
    Grows h a.blocks_ h1 a1.blocks_ := by
  by_cases hfit : bytes ≤ a.alloc_bytes_remaining_
  · simp only [allocate, hfit, if_true, Option.some.injEq, Prod.mk.injEq] at hcall
    obtain ⟨_, rfl, rfl⟩ := hcall
    exact Or.inl ⟨rfl, rfl⟩
  · by_cases hbig : bytes > kBlockSize / 4
    · by_cases hm : malloc h bytes = 0
      · simp [allocate, AllocateFallback, AllocateNewBlock, hfit, hbig, hm] at hcall
      · simp only [allocate, AllocateFallback, AllocateNewBlock, hfit, hbig, hm, if_true,
          if_false, Option.some.injEq, Prod.mk.injEq] at hcall
        obtain ⟨_, rfl, rfl⟩ := hcall
        exact Or.inr ⟨⟨malloc h bytes, bytes⟩, hm, rfl, rfl⟩
    · by_cases hm : malloc h kBlockSize = 0
      · simp [allocate, AllocateFallback, AllocateNewBlock, hfit, hbig, hm] at hcall
      · simp only [allocate, AllocateFallback, AllocateNewBlock, hfit, hbig, hm, if_true,
          if_false, Option.some.injEq, Prod.mk.injEq] at hcall
        obtain ⟨_, rfl, rfl⟩ := hcall
        exact Or.inr ⟨⟨malloc h kBlockSize, kBlockSize⟩, hm, rfl, rfl⟩

/-- With a system allocator that never fails, `allocate` returns. -/
theorem allocate_total {malloc : Malloc} (hm : MallocTotal malloc) (bytes : Nat)
    (w : Heap × LevelDBArena) : ∃ p w1, allocate malloc bytes w = some (p, w1) := by
  unfold allocate AllocateFallback AllocateNewBlock
  split
  · exact ⟨_, _, rfl⟩
  · split
    · simp [hm w.1 bytes]
    · simp [hm w.1 kBlockSize]

/-- Induction along a sequence of `allocate` calls. -/
theorem allocateAll_induct {malloc : Malloc} (hm : MallocTotal malloc)
    (P : Heap × LevelDBArena → Prop)
    (step : ∀ w bytes p w1, P w → allocate malloc bytes w = some (p, w1) → P w1)
    (reqs : List Nat) :
    ∀ w, P w → ∃ rs w1, allocateAll malloc reqs w = some (rs, w1) ∧ P w1 := by
  induction reqs with
  | nil => exact fun w hw => ⟨[], w, rfl, hw⟩
  | cons n ns ih =>
    intro w hw
    obtain ⟨p, w1, he⟩ := allocate_total hm n w
    obtain ⟨rs, w2, he2, hP⟩ := ih w1 (step w n p w1 hw he)
    exact ⟨(p, n) :: rs, w2, by simp only [allocateAll, he, he2], hP⟩

end LevelDBArena

namespace SimpleArena

theorem allocate_grows_simple (malloc : Malloc) (bytes alignment : Nat) (h : Heap) (a : SimpleArena)
    (p : Nat) (h1 : Heap) (a1 : SimpleArena)
    (hcall : allocate malloc bytes alignment (h, a) = some (p, h1, a1)) :
    Grows h a.blocks_ h1 a1.blocks_ := by
  rw [allocate_unfold malloc bytes alignment _ (h, a) rfl] at hcall
  generalize align bytes alignment = aligned at hcall
  by_cases hfit : aligned > a.bytes_remaining_
  · by_cases hm : malloc h (if aligned > a.block_size_ / 4 then aligned else a.block_size_) = 0
    · simp [allocate_block, hfit, hm] at hcall
    · simp only [allocate_block, hfit, hm, if_true, if_false, Option.some.injEq,
        Prod.mk.injEq] at hcall
      obtain ⟨_, rfl, rfl⟩ := hcall
      exact Or.inr ⟨⟨_, _⟩, hm, rfl, rfl⟩
  · simp only [hfit, if_false, Option.some.injEq, Prod.mk.injEq] at hcall
    obtain ⟨_, rfl, rfl⟩ := hcall
    exact Or.inl ⟨rfl, rfl⟩

/-- With a system allocator that never fails, `allocate` returns. -/
theorem allocate_total_simple {malloc : Malloc} (hm : MallocTotal malloc) (bytes alignment : Nat)
    (w : Heap × SimpleArena) : ∃ p w1, allocate malloc bytes alignment w = some (p, w1) := by
  rw [allocate_unfold malloc bytes alignment _ w rfl]
  generalize align bytes alignment = aligned
  by_cases hfit : aligned > w.2.bytes_remaining_
  · have hm1 := hm w.1 (if aligned > w.2.block_size_ / 4 then aligned else w.2.block_size_)
    simp [allocate_block, hfit, hm1]
  · simp [hfit]

/-- Induction along a sequence of `allocate` calls. -/
theorem allocateAll_induct_simple {malloc : Malloc} (hm : MallocTotal malloc)
    (P : Heap × SimpleArena → Prop)
    (step : ∀ w bytes alignment p w1, P w →
      allocate malloc bytes alignment w = some (p, w1) → P w1)
    (calls : List (Nat × Nat)) :
    ∀ w, P w → ∃ ps w1, allocateAll malloc calls w = some (ps, w1) ∧ P w1 := by
  induction calls with
  | nil => exact fun w hw => ⟨[], w, rfl, hw⟩
  | cons c cs ih =>
    intro w hw
    obtain ⟨p, w1, he⟩ := allocate_total_simple hm c.1 c.2 w
    obtain ⟨ps, w2, he2, hP⟩ := ih w1 (step w c.1 c.2 p w1 hw he)
    exact ⟨p :: ps, w2, by simp only [allocateAll, he, he2], hP⟩

end SimpleArena

theorem bumpMalloc_total : MallocTotal bumpMalloc := by
  intro h n
  show (heapTop h / 16 + 1) * 16 ≠ 0
  omega

/-- C12: in both arenas every `allocate` call leaves the record of the system
allocator and `blocks_` alone or appends one block to both; after any sequence of
calls on a fresh arena `blocks_` lists the bases of the acquired blocks in
acquisition order; and the destructor then makes as many `std::free` calls as
blocks were acquired, none of them fails, and no block is left unreleased. -/
theorem bulk_release (malloc : Malloc) (hm : MallocTotal malloc) (reqs : List Nat)
    (calls : List (Nat × Nat)) (block_size : Nat) :
    (∀ bytes h a p h1 a1, LevelDBArena.allocate malloc bytes (h, a) = some (p, h1, a1) →
        (h1 = h ∧ a1.blocks_ = a.blocks_) ∨
          ∃ b : Block, h1 = h ++ [b] ∧ a1.blocks_ = a.blocks_ ++ [b.base]) ∧
      (∀ bytes alignment h a p h1 a1,
        SimpleArena.allocate malloc bytes alignment (h, a) = some (p, h1, a1) →
        (h1 = h ∧ a1.blocks_ = a.blocks_) ∨
          ∃ b : Block, h1 = h ++ [b] ∧ a1.blocks_ = a.blocks_ ++ [b.base]) ∧
      (∃ rs h a, LevelDBArena.allocateAll malloc reqs ([], LevelDBArena.ctor) =
          some (rs, h, a) ∧
        a.blocks_ = h.map Block.base ∧ LevelDBArena.dtor (h, a) = some (h.length, [])) ∧
      (∃ ps h a, SimpleArena.allocateAll malloc calls ([], SimpleArena.ctor block_size) =
          some (ps, h, a) ∧
        a.blocks_ = h.map Block.base ∧ SimpleArena.dtor (h, a) = some (h.length, [])) := by
  refine ⟨?_, ?_, ?_, ?_⟩
  · intro bytes h a p h1 a1 hcall
    rcases LevelDBArena.allocate_grows malloc bytes h a p h1 a1 hcall with hg | ⟨b, _, hg⟩
    · exact Or.inl hg
    · exact Or.inr ⟨b, hg⟩
  · intro bytes alignment h a p h1 a1 hcall
    rcases SimpleArena.allocate_grows_simple malloc bytes alignment h a p h1 a1 hcall with
      hg | ⟨b, _, hg⟩
    · exact Or.inl hg
    · exact Or.inr ⟨b, hg⟩
  · obtain ⟨rs, ⟨h, a⟩, he, hrec, hnz⟩ :=
      LevelDBArena.allocateAll_induct hm
        (fun w => w.2.blocks_ = w.1.map Block.base ∧ ∀ b ∈ w.1, b.base ≠ 0)
        (fun w bytes p w1 hw hcall =>
          (LevelDBArena.allocate_grows malloc bytes w.1 w.2 p w1.1 w1.2 hcall).recorded hw)
        reqs ([], LevelDBArena.ctor) ⟨rfl, by simp⟩
    refine ⟨rs, h, a, he, hrec, ?_⟩
    show freeAll a.blocks_ h = some (h.length, [])
    rw [hrec]
    exact freeAll_bases h hnz
  · obtain ⟨ps, ⟨h, a⟩, he, hrec, hnz⟩ :=
      SimpleArena.allocateAll_induct_simple hm
        (fun w => w.2.blocks_ = w.1.map Block.base ∧ ∀ b ∈ w.1, b.base ≠ 0)
        (fun w bytes alignment p w1 hw hcall =>
          (SimpleArena.allocate_grows_simple malloc bytes alignment w.1 w.2 p w1.1 w1.2
            hcall).recorded hw)
        calls ([], SimpleArena.ctor block_size) ⟨rfl, by simp⟩
    refine ⟨ps, h, a, he, hrec, ?_⟩
    show freeAll a.blocks_ h = some (h.length, [])
    rw [hrec]
    exact freeAll_bases h hnz


theorem bulk_release_witness :
    (∀ bytes h a p h1 a1, LevelDBArena.allocate bumpMalloc bytes (h, a) = some (p, h1, a1) →
        (h1 = h ∧ a1.blocks_ = a.blocks_) ∨
          ∃ b : Block, h1 = h ++ [b] ∧ a1.blocks_ = a.blocks_ ++ [b.base]) ∧
      (∀ bytes alignment h a p h1 a1,
        SimpleArena.allocate bumpMalloc bytes alignment (h, a) = some (p, h1, a1) →
        (h1 = h ∧ a1.blocks_ = a.blocks_) ∨
          ∃ b : Block, h1 = h ++ [b] ∧ a1.blocks_ = a.blocks_ ++ [b.base]) ∧
      (∃ rs h a, LevelDBArena.allocateAll bumpMalloc [100, 5000, 0, 4000, 30]
          ([], LevelDBArena.ctor) = some (rs, h, a) ∧
        a.blocks_ = h.map Block.base ∧ LevelDBArena.dtor (h, a) = some (h.length, [])) ∧
      (∃ ps h a, SimpleArena.allocateAll bumpMalloc [(3, 8), (5000, 16), (0, 1), (7, 3)]
          ([], SimpleArena.ctor 64) = some (ps, h, a) ∧
        a.blocks_ = h.map Block.base ∧ SimpleArena.dtor (h, a) = some (h.length, [])) :=
  bulk_release bumpMalloc bumpMalloc_total [100, 5000, 0, 4000, 30]
    [(3, 8), (5000, 16), (0, 1), (7, 3)] 64

/-! ## One alignment for all calls of `SimpleArena::allocate` -/

namespace SimpleArena

theorem dvd_align (n k : Nat) (hk : k < 64) : 2 ^ k ∣ align n (2 ^ k) :=
  ⟨_, align_two_pow n k hk⟩

/-- One call keeps the cursor on a multiple of the alignment, and returns one. -/
theorem allocate_aligned {malloc : Malloc} (h16 : ∀ h n, 16 ∣ malloc h n) (k : Nat)
    (hk : k ≤ 4) (bytes : Nat) (w : Heap × SimpleArena) (p : Nat) (w1 : Heap × SimpleArena)
    (hw : 2 ^ k ∣ w.2.alloc_ptr_) (hcall : allocate malloc bytes (2 ^ k) w = some (p, w1)) :
    2 ^ k ∣ p ∧ 2 ^ k ∣ w1.2.alloc_ptr_ := by
  have hal : 2 ^ k ∣ align bytes (2 ^ k) := dvd_align bytes k (by omega)
  have h16k : (2 : Nat) ^ k ∣ 16 := by
    have : (16 : Nat) = 2 ^ 4 := by norm_num
    rw [this]
    exact Nat.pow_dvd_pow 2 hk
  rw [allocate_unfold malloc bytes (2 ^ k) _ w rfl] at hcall
  generalize align bytes (2 ^ k) = aligned at hcall hal
  by_cases hfit : aligned > w.2.bytes_remaining_
  · by_cases hm : malloc w.1 (if aligned > w.2.block_size_ / 4 then aligned
        else w.2.block_size_) = 0
    · simp [allocate_block, hfit, hm] at hcall
    · simp only [allocate_block, hfit, hm, if_true, if_false, Option.some.injEq,
        Prod.mk.injEq] at hcall
      obtain ⟨rfl, rfl⟩ := hcall
      have hb := Nat.dvd_trans h16k (h16 w.1 (if aligned > w.2.block_size_ / 4 then aligned
        else w.2.block_size_))
      exact ⟨hb, Nat.dvd_add hb hal⟩
  · simp only [hfit, if_false, Option.some.injEq, Prod.mk.injEq] at hcall
    obtain ⟨rfl, rfl⟩ := hcall
    exact ⟨hw, Nat.dvd_add hw hal⟩

theorem allocateAll_aligned {malloc : Malloc} (hm : MallocTotal malloc)
    (h16 : ∀ h n, 16 ∣ malloc h n) (k : Nat) (hk : k ≤ 4) (sizes : List Nat) :
    ∀ w : Heap × SimpleArena, 2 ^ k ∣ w.2.alloc_ptr_ →
      ∃ ps w1, allocateAll malloc (sizes.map (fun n => (n, 2 ^ k))) w = some (ps, w1) ∧
        ps.length = sizes.length ∧ (∀ p ∈ ps, 2 ^ k ∣ p) ∧ 2 ^ k ∣ w1.2.alloc_ptr_ := by
  induction sizes with
  | nil => exact fun w hw => ⟨[], w, rfl, rfl, by simp, hw⟩
  | cons n ns ih =>
    intro w hw
    obtain ⟨p, w1, he⟩ := allocate_total_simple hm n (2 ^ k) w
    obtain ⟨hp, hw1⟩ := allocate_aligned h16 k hk n w p w1 hw he
    obtain ⟨ps, w2, he2, hlen, hps, hw2⟩ := ih w1 hw1
    refine ⟨p :: ps, w2, ?_, by simp [hlen], ?_, hw2⟩
    · simp only [List.map_cons, allocateAll, he, he2]
    · intro q hq
      rcases List.mem_cons.mp hq with rfl | hq
      · exact hp
      · exact hps q hq

/-- C17: when the system allocator hands out bases that are multiples of 16 and all
calls on a fresh arena use one alignment `2 ^ k` with `2 ^ k ≤ 16`, every call
returns, every returned address is a multiple of `2 ^ k`, every rounded size is a
multiple of `2 ^ k`, and so is the cursor `alloc_ptr_` at the end. -/
theorem uniform_alignment (malloc : Malloc) (hm : MallocTotal malloc)
    (h16 : ∀ h n, 16 ∣ malloc h n) (k : Nat) (hk : 2 ^ k ≤ 16) (block_size : Nat)
    (sizes : List Nat) :
    ∃ ps h a, allocateAll malloc (sizes.map (fun n => (n, 2 ^ k))) ([], ctor block_size) =
        some (ps, h, a) ∧
      ps.length = sizes.length ∧ (∀ p ∈ ps, 2 ^ k ∣ p) ∧
      (∀ n ∈ sizes, 2 ^ k ∣ align n (2 ^ k)) ∧ 2 ^ k ∣ a.alloc_ptr_ := by
  have hk4 : k ≤ 4 := by
    by_contra hc
    have : 2 ^ 5 ≤ 2 ^ k := Nat.pow_le_pow_right (by decide) (by omega)
    omega
  obtain ⟨ps, ⟨h, a⟩, he, hlen, hps, hcur⟩ :=
    allocateAll_aligned hm h16 k hk4 sizes ([], ctor block_size) (Nat.dvd_zero _)
  exact ⟨ps, h, a, he, hlen, hps, fun n _ => dvd_align n k (by omega), hcur⟩

end SimpleArena

theorem bumpMalloc_dvd (h : Heap) (n : Nat) : 16 ∣ bumpMalloc h n :=
  ⟨heapTop h / 16 + 1, Nat.mul_comm _ _⟩

namespace SimpleArena

theorem uniform_alignment_witness :
    ∃ ps h a, allocateAll bumpMalloc ([1, 13, 5000, 0, 24].map (fun n => (n, 2 ^ 3)))
        ([], ctor 4096) = some (ps, h, a) ∧
      ps.length = [1, 13, 5000, 0, 24].length ∧ (∀ p ∈ ps, 2 ^ 3 ∣ p) ∧
      (∀ n ∈ [1, 13, 5000, 0, 24], 2 ^ 3 ∣ align n (2 ^ 3)) ∧ 2 ^ 3 ∣ a.alloc_ptr_ :=
  uniform_alignment bumpMalloc bumpMalloc_total bumpMalloc_dvd 3 (by decide) 4096
    [1, 13, 5000, 0, 24]

end SimpleArena

/-! ## The remaining count of `SimpleArena` -/

theorem subSz_cast_of_le {a b : Nat} (hb : b ≤ a) (ha : a < SIZE) :
    ((subSz a b : Nat) : Int) = (a : Int) - (b : Int) := by
  rw [subSz_of_le hb ha]
  omega

namespace SimpleArena

/-- After the optional `allocate_block` call the rounded size fits. -/
theorem optional_block_fits (malloc : Malloc) (aligned : Nat) (h : Heap) (a : SimpleArena)
    (h1 : Heap) (a1 : SimpleArena) (hwf : a.bytes_remaining_ < SIZE)
    (hbs : a.block_size_ < SIZE) (hal : aligned < SIZE)
    (hcall : (if aligned > a.bytes_remaining_ then allocate_block malloc aligned (h, a)
      else some (h, a)) = some (h1, a1)) :
    aligned ≤ a1.bytes_remaining_ ∧ a1.bytes_remaining_ < SIZE := by
  by_cases hfit : aligned > a.bytes_remaining_
  · by_cases hm : malloc h (if aligned > a.block_size_ / 4 then aligned else a.block_size_) = 0
    · simp [allocate_block, hfit, hm] at hcall
    · simp only [allocate_block, hfit, hm, if_true, if_false, Option.some.injEq,
        Prod.mk.injEq] at hcall
      obtain ⟨_, rfl⟩ := hcall
      refine ⟨allocate_block_size_ge aligned a.block_size_, ?_⟩
      show (if aligned > a.block_size_ / 4 then aligned else a.block_size_) < SIZE
      split <;> assumption
  · simp only [hfit, if_false, Option.some.injEq, Prod.mk.injEq] at hcall
    obtain ⟨_, rfl⟩ := hcall
    exact ⟨Nat.not_lt.mp hfit, hwf⟩

/-- One call keeps the cursor in the last block. -/
theorem allocate_cursor_simple {malloc : Malloc} (hm : MallocTotal malloc) (bytes alignment : Nat)
    (w : Heap × SimpleArena) (p : Nat) (w1 : Heap × SimpleArena)
    (hw : w.2.block_size_ < SIZE ∧ w.2.bytes_remaining_ < SIZE ∧ CursorInLast w.1 w.2)
    (hcall : allocate malloc bytes alignment w = some (p, w1)) :
    w1.2.block_size_ < SIZE ∧ w1.2.bytes_remaining_ < SIZE ∧ CursorInLast w1.1 w1.2 := by
  obtain ⟨h, a⟩ := w
  obtain ⟨h1, a1⟩ := w1
  dsimp only at hw ⊢
  obtain ⟨hbs, hwf, hcur⟩ := hw
  by_cases hfit : align bytes alignment ≤ a.bytes_remaining_
  · rw [allocate_eq_carve malloc h a bytes alignment hwf hfit] at hcall
    simp only [Option.some.injEq, Prod.mk.injEq] at hcall
    obtain ⟨_, rfl, rfl⟩ := hcall
    refine ⟨hbs, Nat.lt_of_le_of_lt (Nat.sub_le _ _) hwf, ?_⟩
    rcases hcur with ⟨hp, hr⟩ | ⟨b, o, hb, hbl, hp, hr⟩
    · left
      show a.alloc_ptr_ + align bytes alignment = 0 ∧
        a.bytes_remaining_ - align bytes alignment = 0
      omega
    · right
      refine ⟨b, o + align bytes alignment, hb, hbl, ?_, ?_⟩
      · show a.alloc_ptr_ + align bytes alignment = b.base + (o + align bytes alignment)
        omega
      · show o + align bytes alignment + (a.bytes_remaining_ - align bytes alignment) = b.size
        omega
  · have hge := allocate_block_size_ge (align bytes alignment) a.block_size_
    have hlt : (if align bytes alignment > a.block_size_ / 4 then align bytes alignment
        else a.block_size_) < SIZE := by
      split
      · exact align_lt_SIZE _ _
      · exact hbs
    rw [allocate_eq_new_block malloc h a bytes alignment _ rfl hlt (Nat.not_le.mp hfit)
      (hm _ _)] at hcall
    generalize (if align bytes alignment > a.block_size_ / 4 then align bytes alignment
        else a.block_size_) = S at hcall hge hlt
    simp only [Option.some.injEq, Prod.mk.injEq] at hcall
    obtain ⟨_, rfl, rfl⟩ := hcall
    refine ⟨hbs, Nat.lt_of_le_of_lt (Nat.sub_le _ _) hlt,
      Or.inr ⟨⟨malloc h S, S⟩, align bytes alignment, by simp, by simp, rfl, ?_⟩⟩
    show align bytes alignment + (S - align bytes alignment) = S
    omega

/-- C15: for every `block_size_`, in every state with `size_t` fields, whenever the
optional `allocate_block(aligned)` call of `allocate` returns, the rounded size is
at most `bytes_remaining_`, so that `bytes_remaining_ -= aligned` is the true
difference; and after any sequence of calls on a fresh arena the cursor is null with
nothing remaining, or at an offset `o` into the last block of `blocks_` with
`o + bytes_remaining_` the size of that block. -/
theorem remaining_never_wraps (malloc : Malloc) (hm : MallocTotal malloc) (block_size : Nat)
    (hbs : block_size < SIZE) (calls : List (Nat × Nat)) :
    (∀ bytes alignment h a h1 a1, a.block_size_ < SIZE → a.bytes_remaining_ < SIZE →
        (if align bytes alignment > a.bytes_remaining_
          then allocate_block malloc (align bytes alignment) (h, a) else some (h, a)) =
            some (h1, a1) →
        align bytes alignment ≤ a1.bytes_remaining_ ∧
          ((subSz a1.bytes_remaining_ (align bytes alignment) : Nat) : Int) =
            (a1.bytes_remaining_ : Int) - (align bytes alignment : Int)) ∧
      ∃ ps h a, allocateAll malloc calls ([], ctor block_size) = some (ps, h, a) ∧
        CursorInLast h a := by
  refine ⟨?_, ?_⟩
  · intro bytes alignment h a h1 a1 hb hwf hcall
    obtain ⟨hle, hlt⟩ :=
      optional_block_fits malloc _ h a h1 a1 hwf hb (align_lt_SIZE _ _) hcall
    exact ⟨hle, subSz_cast_of_le hle hlt⟩
  · obtain ⟨ps, ⟨h, a⟩, he, _, _, hcur⟩ :=
      allocateAll_induct_simple hm
        (fun w => w.2.block_size_ < SIZE ∧ w.2.bytes_remaining_ < SIZE ∧ CursorInLast w.1 w.2)
        (fun w bytes alignment p w1 hw hcall =>
          allocate_cursor_simple hm bytes alignment w p w1 hw hcall)
        calls ([], ctor block_size) ⟨hbs, show 0 < SIZE by decide, Or.inl ⟨rfl, rfl⟩⟩
    exact ⟨ps, h, a, he, hcur⟩

theorem remaining_never_wraps_witness :
    (∀ bytes alignment h a h1 a1, a.block_size_ < SIZE → a.bytes_remaining_ < SIZE →
        (if align bytes alignment > a.bytes_remaining_
          then allocate_block bumpMalloc (align bytes alignment) (h, a) else some (h, a)) =
            some (h1, a1) →
        align bytes alignment ≤ a1.bytes_remaining_ ∧
          ((subSz a1.bytes_remaining_ (align bytes alignment) : Nat) : Int) =
            (a1.bytes_remaining_ : Int) - (align bytes alignment : Int)) ∧
      ∃ ps h a, allocateAll bumpMalloc [(3, 8), (5000, 16), (0, 1), (7, 3), (1, 1)]
          ([], ctor 3) = some (ps, h, a) ∧
        CursorInLast h a :=
  remaining_never_wraps bumpMalloc bumpMalloc_total 3 (by decide)
    [(3, 8), (5000, 16), (0, 1), (7, 3), (1, 1)]

end SimpleArena

/-! ## The cursor of `LevelDBArena` -/

namespace LevelDBArena

/-- One call keeps the cursor in the standard block of the ghost index. -/
theorem allocate_cursor {malloc : Malloc} (bytes : Nat) (h : Heap) (a : LevelDBArena)
    (i : Option Nat) (p : Nat) (h1 : Heap) (a1 : LevelDBArena)
    (hlen : a.blocks_.length = h.length) (hcur : StandardCursor h a i)
    (hcall : allocate malloc bytes (h, a) = some (p, h1, a1)) :
    a1.blocks_.length = h1.length ∧
      StandardCursor h1 a1
        (if bytes ≤ a.alloc_bytes_remaining_ then i
         else if bytes > kBlockSize / 4 then i
         else some a.blocks_.length) := by
  have hk : kBlockSize = 4096 := rfl
  have hrem : a.alloc_bytes_remaining_ ≤ 4096 := by
    cases i with
    | none => have := hcur.2; omega
    | some j =>
      obtain ⟨b, o, _, _, _, _, _, hr⟩ := hcur
      omega
  by_cases hfit : bytes ≤ a.alloc_bytes_remaining_
  · rw [allocate_eq_fast malloc h a bytes (by unfold SIZE; omega) hfit] at hcall
    simp only [Option.some.injEq, Prod.mk.injEq] at hcall
    obtain ⟨_, rfl, rfl⟩ := hcall
    rw [if_pos hfit]
    refine ⟨hlen, ?_⟩
    cases i with
    | none =>
      obtain ⟨hp, hr⟩ := hcur
      show a.alloc_ptr_ + bytes = 0 ∧ a.alloc_bytes_remaining_ - bytes = 0
      omega
    | some j =>
      obtain ⟨b, o, hb, hbl, hsz, ho, hp, hr⟩ := hcur
      refine ⟨b, o + bytes, hb, hbl, hsz, ?_, ?_, ?_⟩
      · omega
      · show a.alloc_ptr_ + bytes = b.base + (o + bytes)
        omega
      · show a.alloc_bytes_remaining_ - bytes = kBlockSize - (o + bytes)
        omega
  · rw [if_neg hfit]
    by_cases hbig : bytes > kBlockSize / 4
    · rw [if_pos hbig]
      by_cases hm : malloc h bytes = 0
      · simp [allocate, AllocateFallback, AllocateNewBlock, hfit, hbig, hm] at hcall
      · rw [allocate_eq_dedicated malloc h a bytes (Nat.not_le.mp hfit) hbig hm] at hcall
        simp only [Option.some.injEq, Prod.mk.injEq] at hcall
        obtain ⟨_, rfl, rfl⟩ := hcall
        refine ⟨by simp [hlen], ?_⟩
        cases i with
        | none => exact hcur
        | some j =>
          obtain ⟨b, o, hb, hbl, hsz, ho, hp, hr⟩ := hcur
          have hj : j < h.length := (List.getElem?_eq_some_iff.mp hb).1
          refine ⟨b, o, ?_, ?_, hsz, ho, hp, hr⟩
          · rw [List.getElem?_append_left hj]
            exact hb
          · show (a.blocks_ ++ [malloc h bytes])[j]? = some b.base
            rw [List.getElem?_append_left (by omega)]
            exact hbl
    · rw [if_neg hbig]
      by_cases hm : malloc h kBlockSize = 0
      · simp [allocate, AllocateFallback, AllocateNewBlock, hfit, hbig, hm] at hcall
      · rw [allocate_eq_refill malloc h a bytes (Nat.not_le.mp hfit) (Nat.not_lt.mp hbig) hm]
          at hcall
        simp only [Option.some.injEq, Prod.mk.injEq] at hcall
        obtain ⟨_, rfl, rfl⟩ := hcall
        refine ⟨by simp [hlen], ⟨malloc h kBlockSize, 4096⟩, bytes, ?_, ?_, rfl, ?_, rfl, rfl⟩
        · rw [hlen]
          simp
        · show (a.blocks_ ++ [malloc h kBlockSize])[a.blocks_.length]? = _
          simp
        · omega

theorem allocateAll_cursor {malloc : Malloc} (hm : MallocTotal malloc) (reqs : List Nat) :
    ∀ (w : Heap × LevelDBArena) (i : Option Nat), w.2.blocks_.length = w.1.length →
      StandardCursor w.1 w.2 i →
      ∃ rs w1, allocateAll malloc reqs w = some (rs, w1) ∧
        w1.2.blocks_.length = w1.1.length ∧
        StandardCursor w1.1 w1.2 (standardBlock malloc reqs w i) := by
  induction reqs with
  | nil => exact fun w i hlen hcur => ⟨[], w, rfl, hlen, hcur⟩
  | cons n ns ih =>
    intro w i hlen hcur
    obtain ⟨p, w1, he⟩ := allocate_total hm n w
    obtain ⟨hlen1, hcur1⟩ := allocate_cursor n w.1 w.2 i p w1.1 w1.2 hlen hcur he
    obtain ⟨rs, w2, he2, hlen2, hcur2⟩ := ih w1 _ hlen1 hcur1
    refine ⟨(p, n) :: rs, w2, by simp only [allocateAll, he, he2], hlen2, ?_⟩
    simp only [standardBlock, he]
    exact hcur2

theorem StandardCursor.remaining_le {h : Heap} {a : LevelDBArena} {i : Option Nat}
    (hcur : StandardCursor h a i) : a.alloc_bytes_remaining_ ≤ kBlockSize := by
  cases i with
  | none => rw [hcur.2]; exact Nat.zero_le _
  | some j =>
    obtain ⟨b, o, _, _, _, _, _, hr⟩ := hcur
    rw [hr]
    exact Nat.sub_le _ _

/-- C14: after any sequence of `allocate` calls on a fresh arena the cursor is null
with nothing remaining while no standard block was acquired, and else lies at an
offset `o ≤ 4096` into the standard block acquired most recently, which is recorded
in `blocks_` and has 4096 bytes, with `4096 - o` bytes remaining.  So
`alloc_bytes_remaining_ ≤ 4096`, and the subtractions of the next call, in
`allocate` when the request fits and in `AllocateFallback` when it is at most
`kBlockSize / 4`, are the true differences. -/
theorem cursor_invariant (malloc : Malloc) (hm : MallocTotal malloc) (reqs : List Nat) :
    ∃ rs h a, allocateAll malloc reqs ([], ctor) = some (rs, h, a) ∧
      StandardCursor h a (standardBlock malloc reqs ([], ctor) none) ∧
      a.alloc_bytes_remaining_ ≤ 4096 ∧
      ∀ bytes,
        (bytes ≤ a.alloc_bytes_remaining_ →
          ((subSz a.alloc_bytes_remaining_ bytes : Nat) : Int) =
            (a.alloc_bytes_remaining_ : Int) - (bytes : Int)) ∧
        (bytes ≤ kBlockSize / 4 →
          ((subSz kBlockSize bytes : Nat) : Int) = (kBlockSize : Int) - (bytes : Int)) := by
  obtain ⟨rs, ⟨h, a⟩, he, _, hcur⟩ :=
    allocateAll_cursor hm reqs ([], ctor) none rfl ⟨rfl, rfl⟩
  have hle := hcur.remaining_le
  have hk : kBlockSize = 4096 := rfl
  refine ⟨rs, h, a, he, hcur, hle, fun bytes => ⟨fun hfit => ?_, fun hsmall => ?_⟩⟩
  · exact subSz_cast_of_le hfit (Nat.lt_of_le_of_lt hle kBlockSize_lt_SIZE)
  · exact subSz_cast_of_le (by omega) kBlockSize_lt_SIZE

theorem cursor_invariant_witness :
    ∃ rs h a, allocateAll bumpMalloc [5000, 100, 4096, 2000, 2000, 0] ([], ctor) =
        some (rs, h, a) ∧
      StandardCursor h a (standardBlock bumpMalloc [5000, 100, 4096, 2000, 2000, 0]
        ([], ctor) none) ∧
      a.alloc_bytes_remaining_ ≤ 4096 ∧
      ∀ bytes,
        (bytes ≤ a.alloc_bytes_remaining_ →
          ((subSz a.alloc_bytes_remaining_ bytes : Nat) : Int) =
            (a.alloc_bytes_remaining_ : Int) - (bytes : Int)) ∧
        (bytes ≤ kBlockSize / 4 →
          ((subSz kBlockSize bytes : Nat) : Int) = (kBlockSize : Int) - (bytes : Int)) :=
  cursor_invariant bumpMalloc bumpMalloc_total [5000, 100, 4096, 2000, 2000, 0]


end LevelDBArena

/-! ## `SimpleArena` against `LevelDBArena` -/

theorem SimpleArena.align_one (n : Nat) (hn : n < SIZE) : SimpleArena.align n 1 = n := by
  have h := SimpleArena.align_of_fits n 0 (by decide) (by simpa using hn)
  simpa using h

theorem SamePlace.append {h1 h2 : Heap} {p q : Nat} (hs : SamePlace h1 h2 p q)
    (t1 t2 : Heap) : SamePlace (h1 ++ t1) (h2 ++ t2) p q := by
  rcases hs with h0 | ⟨j, o, b, c, hb, hc, hob, hoc, hp, hq⟩
  · exact Or.inl h0
  · refine Or.inr ⟨j, o, b, c, ?_, ?_, hob, hoc, hp, hq⟩
    · rw [List.getElem?_append_left (List.getElem?_eq_some_iff.mp hb).1]
      exact hb
    · rw [List.getElem?_append_left (List.getElem?_eq_some_iff.mp hc).1]
      exact hc

/-- One request of at most `kBlockSize / 4` bytes keeps the two arenas in step. -/
theorem Agree.step {m1 m2 : Malloc} (hm1 : MallocTotal m1) (hm2 : MallocTotal m2)
    {w1 : Heap × SimpleArena} {w2 : Heap × LevelDBArena} (hA : Agree w1 w2) (n : Nat)
    (hn : n ≤ LevelDBArena.kBlockSize / 4) :
    ∃ p v1 q v2, SimpleArena.allocate m1 n 1 w1 = some (p, v1) ∧
      LevelDBArena.allocate m2 n w2 = some (q, v2) ∧ Agree v1 v2 ∧
      SamePlace v1.1 v2.1 p q ∧ (∃ t1, v1.1 = w1.1 ++ t1) ∧ ∃ t2, v2.1 = w2.1 ++ t2 := by
  obtain ⟨h1, s⟩ := w1
  obtain ⟨h2, a⟩ := w2
  obtain ⟨hbs, hsz, hrem, hle, hcur⟩ := hA
  dsimp only at hbs hsz hrem hle hcur
  have hk : LevelDBArena.kBlockSize = 4096 := rfl
  rw [hk] at hn
  have hS : SIZE = 2 ^ 64 := rfl
  have hal : SimpleArena.align n 1 = n := SimpleArena.align_one n (by rw [hS]; omega)
  have hlen : h1.length = h2.length := by
    have := congrArg List.length hsz
    simpa using this
  by_cases hfit : n ≤ a.alloc_bytes_remaining_
  · have e1 := SimpleArena.allocate_eq_carve m1 h1 s n 1 (by rw [hrem, hS]; omega)
      (by rw [hal, hrem]; exact hfit)
    have e2 := LevelDBArena.allocate_eq_fast m2 h2 a n (by rw [hS]; omega) hfit
    rw [hal] at e1
    refine ⟨_, _, _, _, e1, e2, ⟨hbs, hsz, ?_, ?_, ?_⟩, ?_, ⟨[], by simp⟩, ⟨[], by simp⟩⟩
    · show s.bytes_remaining_ - n = a.alloc_bytes_remaining_ - n
      rw [hrem]
    · show a.alloc_bytes_remaining_ - n ≤ 4096
      omega
    · rcases hcur with ⟨hp, hq, hr⟩ | ⟨j, o, b, c, hb, hc, hbz, hcz, ho, hp, hq⟩
      · left
        show s.alloc_ptr_ + n = 0 ∧ a.alloc_ptr_ + n = 0 ∧ a.alloc_bytes_remaining_ - n = 0
        omega
      · right
        refine ⟨j, o + n, b, c, hb, hc, hbz, hcz, ?_, ?_, ?_⟩
        · show o + n + (a.alloc_bytes_remaining_ - n) = 4096
          omega
        · show s.alloc_ptr_ + n = b.base + (o + n)
          omega
        · show a.alloc_ptr_ + n = c.base + (o + n)
          omega
    · rcases hcur with ⟨hp, hq, _⟩ | ⟨j, o, b, c, hb, hc, hbz, hcz, ho, hp, hq⟩
      · exact Or.inl ⟨hp, hq⟩
      · exact Or.inr ⟨j, o, b, c, hb, hc, by omega, by omega, hp, hq⟩
  · have hsize : (4096 : Nat) = if SimpleArena.align n 1 > s.block_size_ / 4
        then SimpleArena.align n 1 else s.block_size_ := by
      rw [hal, hbs, if_neg (by omega)]
    have e1 := SimpleArena.allocate_eq_new_block m1 h1 s n 1 4096 hsize (by decide)
      (by rw [hal, hrem]; omega) (hm1 _ _)
    have e2 := LevelDBArena.allocate_eq_refill m2 h2 a n (Nat.not_le.mp hfit)
      (by rw [hk]; exact hn) (hm2 _ _)
    rw [hal] at e1
    rw [hk] at e2
    have hb : (h1 ++ [(⟨m1 h1 4096, 4096⟩ : Block)])[h1.length]? = some ⟨m1 h1 4096, 4096⟩ := by
      simp
    have hc : (h2 ++ [(⟨m2 h2 4096, 4096⟩ : Block)])[h1.length]? = some ⟨m2 h2 4096, 4096⟩ := by
      rw [hlen]
      simp
    refine ⟨_, _, _, _, e1, e2, ⟨hbs, ?_, rfl, ?_, ?_⟩, ?_, ⟨_, rfl⟩, ⟨_, rfl⟩⟩
    · show (h1 ++ [(⟨m1 h1 4096, 4096⟩ : Block)]).map Block.size =
        (h2 ++ [(⟨m2 h2 4096, 4096⟩ : Block)]).map Block.size
      simp [hsz]
    · show 4096 - n ≤ 4096
      omega
    · refine Or.inr ⟨h1.length, n, _, _, hb, hc, rfl, rfl, ?_, rfl, rfl⟩
      show n + (4096 - n) = 4096
      omega
    · exact Or.inr ⟨h1.length, 0, _, _, hb, hc, Nat.zero_le _, Nat.zero_le _, rfl, rfl⟩

theorem Agree.steps {m1 m2 : Malloc} (hm1 : MallocTotal m1) (hm2 : MallocTotal m2)
    (reqs : List Nat) :
    ∀ (w1 : Heap × SimpleArena) (w2 : Heap × LevelDBArena), Agree w1 w2 →
      (∀ n ∈ reqs, n ≤ LevelDBArena.kBlockSize / 4) →
      ∃ ps v1 rs v2, SimpleArena.allocateAll m1 (reqs.map (fun n => (n, 1))) w1 =
          some (ps, v1) ∧
        LevelDBArena.allocateAll m2 reqs w2 = some (rs, v2) ∧ Agree v1 v2 ∧
        List.Forall₂ (SamePlace v1.1 v2.1) ps (rs.map Prod.fst) ∧
        (∃ t1, v1.1 = w1.1 ++ t1) ∧ ∃ t2, v2.1 = w2.1 ++ t2 := by
  induction reqs with
  | nil =>
    intro w1 w2 hA _
    exact ⟨[], w1, [], w2, rfl, rfl, hA, List.Forall₂.nil, ⟨[], by simp⟩, ⟨[], by simp⟩⟩
  | cons n ns ih =>
    intro w1 w2 hA hreqs
    obtain ⟨p, u1, q, u2, e1, e2, hA1, hpq, ⟨t1, ht1⟩, ⟨t2, ht2⟩⟩ :=
      hA.step hm1 hm2 n (hreqs n (List.mem_cons_self _ _))
    obtain ⟨ps, v1, rs, v2, f1, f2, hA2, hall, ⟨s1, hs1⟩, ⟨s2, hs2⟩⟩ :=
      ih u1 u2 hA1 (fun m hm => hreqs m (List.mem_cons_of_mem _ hm))
    refine ⟨p :: ps, v1, (q, n) :: rs, v2, ?_, ?_, hA2, ?_, ⟨t1 ++ s1, ?_⟩, ⟨t2 ++ s2, ?_⟩⟩
    · simp only [List.map_cons, SimpleArena.allocateAll, e1, f1]
    · simp only [LevelDBArena.allocateAll, e2, f2]
    · refine List.Forall₂.cons ?_ hall
      rw [hs1, hs2]
      exact hpq.append s1 s2
    · rw [hs1, ht1, List.append_assoc]
    · rw [hs2, ht2, List.append_assoc]

theorem Agree.fresh (m1 m2 : Malloc) (hm1 : MallocTotal m1) (hm2 : MallocTotal m2)
    (reqs : List Nat) (hreqs : ∀ n ∈ reqs, n ≤ 1024) :
    ∃ ps h1 s rs h2 a,
      SimpleArena.allocateAll m1 (reqs.map (fun n => (n, 1))) ([], SimpleArena.ctor 4096) =
        some (ps, h1, s) ∧
      LevelDBArena.allocateAll m2 reqs ([], LevelDBArena.ctor) = some (rs, h2, a) ∧
      h1.map Block.size = h2.map Block.size ∧
      List.Forall₂ (SamePlace h1 h2) ps (rs.map Prod.fst) ∧
      s.bytes_remaining_ = a.alloc_bytes_remaining_ := by
  have h0 : Agree ([], SimpleArena.ctor 4096) ([], LevelDBArena.ctor) :=
    ⟨rfl, rfl, rfl, by decide, Or.inl ⟨rfl, rfl, rfl⟩⟩
  obtain ⟨ps, ⟨h1, s⟩, rs, ⟨h2, a⟩, e1, e2, hA, hall, _, _⟩ :=
    Agree.steps hm1 hm2 reqs _ _ h0 hreqs
  exact ⟨ps, h1, s, rs, h2, a, e1, e2, hA.sizes, hall, hA.remaining⟩

/-- C18: take any sequence of requests of at most 1024 bytes each and any number
`k` of steps.  A fresh `SimpleArena` of block size 4096 called with alignment 1 and
a fresh `LevelDBArena`, each on its own system allocator, both serve the first `k`
requests; they have then acquired blocks of the same sizes in the same order,
returned for each request pointers at the same offset in the block of the same
index (or both null), and have the same remaining count. -/
theorem arenas_agree_on_small_requests (m1 m2 : Malloc) (hm1 : MallocTotal m1)
    (hm2 : MallocTotal m2) (reqs : List Nat) (hreqs : ∀ n ∈ reqs, n ≤ 1024) (k : Nat) :
    ∃ ps h1 s rs h2 a,
      SimpleArena.allocateAll m1 ((reqs.take k).map (fun n => (n, 1)))
        ([], SimpleArena.ctor 4096) = some (ps, h1, s) ∧
      LevelDBArena.allocateAll m2 (reqs.take k) ([], LevelDBArena.ctor) = some (rs, h2, a) ∧
      h1.map Block.size = h2.map Block.size ∧
      List.Forall₂ (SamePlace h1 h2) ps (rs.map Prod.fst) ∧
      s.bytes_remaining_ = a.alloc_bytes_remaining_ :=
  Agree.fresh m1 m2 hm1 hm2 (reqs.take k) (fun n hn => hreqs n (List.mem_of_mem_take hn))

theorem arenas_agree_on_small_requests_witness :
    ∃ ps h1 s rs h2 a,
      SimpleArena.allocateAll bumpMalloc (([0, 1000, 1024, 1024, 1024, 100, 7].take 6).map
        (fun n => (n, 1))) ([], SimpleArena.ctor 4096) = some (ps, h1, s) ∧
      LevelDBArena.allocateAll (fun h n => bumpMalloc h n + 64)
        ([0, 1000, 1024, 1024, 1024, 100, 7].take 6) ([], LevelDBArena.ctor) =
          some (rs, h2, a) ∧
      h1.map Block.size = h2.map Block.size ∧
      List.Forall₂ (SamePlace h1 h2) ps (rs.map Prod.fst) ∧
      s.bytes_remaining_ = a.alloc_bytes_remaining_ :=
  arenas_agree_on_small_requests bumpMalloc (fun h n => bumpMalloc h n + 64) bumpMalloc_total
    (fun _ _ => Nat.succ_ne_zero _) [0, 1000, 1024, 1024, 1024, 100, 7] (by decide) 6
